import Mathlib

/-!
DaemonSet controller utilities (`pkg/controller/daemon/util/daemonset_util.go`).

A shallow embedding of the three helpers of the daemon-set controller:

* `GetPodTemplateWithGeneration` stamps a pod template with the two node-fault
  tolerations and the template-generation label;
* `IsPodUpdated` compares a pod's generation label with a generation;
* `SplitByAvailablePods` splits a pod list by availability.

Go values are embedded with value semantics.  A `map[string]string` is a finite
map, with `none` for the nil map.  An `int64` or `int32` is an `Int`.  A slice is
a `List`.  The fields of the Kubernetes records that the helpers never read or
write are carried along as one payload field `Other` of an arbitrary type.  For
the statements about what a call leaves untouched, the stamper is given a second
time over explicit storage, where a label map and a toleration slice are
addresses.
-/

namespace Daemon

/-! ## Data model -/

/-- A non-nil Go `map[string]string`: finitely many keys, one value per key,
no order. -/
abbrev LabelMap := Finmap (fun _ : String => String)

/-- A Go `map[string]string` that may be nil (`none`). -/
abbrev Labels := Option LabelMap

/-- Reading `m[k]` with the comma-ok form, as an option: a nil map holds no key. -/
def Labels.get? (m : Labels) (k : String) : Option String :=
  match m with
  | none => none
  | some lm => lm.lookup k

/-- Go's two-valued map index `v, ok := m[k]`: the zero value `""` and `false`
when the key is absent or the map is nil. -/
def Labels.index (m : Labels) (k : String) : String × Bool :=
  match m.get? k with
  | some v => (v, true)
  | none => ("", false)

/-- The record `v1.Toleration`.  `Operator` and `Effect` are string-typed in Go;
an absent `TolerationSeconds` pointer is `none`. -/
structure Toleration where
  Key : String
  Operator : String
  Value : String
  Effect : String
  TolerationSeconds : Option Int
deriving DecidableEq, Repr

/-- The record `metav1.ObjectMeta`: the label map, and every other field in `Other`. -/
structure ObjectMeta (μ : Type) where
  Labels : Labels
  Other : μ
deriving DecidableEq

/-- The record `v1.PodSpec`: the toleration list, and every other field in `Other`. -/
structure PodSpec (σ : Type) where
  Tolerations : List Toleration
  Other : σ
deriving DecidableEq

/-- The record `v1.PodTemplateSpec`. -/
structure PodTemplateSpec (μ σ : Type) where
  ObjectMeta : ObjectMeta μ
  Spec : PodSpec σ
deriving DecidableEq

/-- Status of a pod condition (`v1.ConditionStatus`). -/
inductive ConditionStatus where
  | True
  | False
  | Unknown
deriving DecidableEq, Repr

/-- The ready condition of a pod: its status and the instant of its last
transition, in nanoseconds. -/
structure PodReadyCondition where
  Status : ConditionStatus
  LastTransitionTime : Int
deriving DecidableEq, Repr

/-- The part of `v1.PodStatus` that availability reads: the ready condition, if
the pod carries one. -/
structure PodStatus where
  Ready : Option PodReadyCondition
deriving DecidableEq, Repr

/-- The record `v1.Pod`. -/
structure Pod (μ σ : Type) where
  ObjectMeta : ObjectMeta μ
  Spec : PodSpec σ
  Status : PodStatus
deriving DecidableEq

/-- The three string constants the helpers import from other packages
(`extensions.DaemonSetTemplateGenerationKey`, `algorithm.TaintNodeNotReady`,
`algorithm.TaintNodeUnreachable`).  Their values are declared outside this
file, so every definition takes them as a parameter. -/
structure Keys where
  DaemonSetTemplateGenerationKey : String
  TaintNodeNotReady : String
  TaintNodeUnreachable : String
deriving DecidableEq, Repr

/-- The constant `v1.TolerationOpExists`. -/
def TolerationOpExists : String := "Exists"

/-- The constant `v1.TaintEffectNoExecute`. -/
def TaintEffectNoExecute : String := "NoExecute"

/-! ## `fmt.Sprint` on an `int64` -/

/-- Go's `fmt.Sprint` applied to one `int64`: the decimal digits of the absolute
value, most significant first and without leading zeros, after a `-` when the
number is negative. -/
def fmt.Sprint (n : Int) : String :=
  match n with
  | Int.ofNat m => Nat.repr m
  | Int.negSucc m => "-" ++ Nat.repr (m + 1)

/-- Reading a digit string back: the number a list of decimal digits denotes. -/
def decodeDigits (cs : List Char) : Nat :=
  cs.foldl (fun v ch => 10 * v + (ch.toNat - 48)) 0

/-! ## `IsPodUpdated` -/

/-- `IsPodUpdated` (source lines 67-71). -/
def IsPodUpdated {μ σ : Type} (c : Keys) (dsTemplateGeneration : Int) (pod : Pod μ σ) : Bool :=
  let r := pod.ObjectMeta.Labels.index c.DaemonSetTemplateGenerationKey
  let podTemplateGeneration := r.1
  let generationExists := r.2
  let dsTemplateGenerationStr := fmt.Sprint dsTemplateGeneration
  generationExists && podTemplateGeneration == dsTemplateGenerationStr

/-! ## `GetPodTemplateWithGeneration` -/

/-- Modelled from the spec: `api.Scheme.DeepCopy` is declared outside this file.
The spec asks of it "an independent deep copy" of the template, "a fully
independent value"; with value semantics that copy is the template itself, and
the operation is "total over well-formed inputs". -/
def DeepCopy {μ σ : Type} (template : PodTemplateSpec μ σ) :
    Except String (PodTemplateSpec μ σ) :=
  Except.ok template

/-- Modelled from the spec: the toleration list that
`v1helper.AddOrUpdateTolerationInPodSpec`, declared outside this file, leaves in
the pod spec.  The spec inserts by "add-or-replace-by-key", "match by key, then
overwrite": an existing entry with the key "is left as the canonical entry
rather than duplicated", and the list ends with "exactly one entry per fault key
(no duplicates), regardless of how many tolerations T started with".  The first
entry that has the key of the given toleration is overwritten by it, in place,
and every later entry with that key is dropped; a list without such an entry
gets the given toleration at its end. -/
def addOrUpdateToleration (toleration : Toleration) : List Toleration → List Toleration
  | [] => [toleration]
  | t :: ts =>
    if t.Key == toleration.Key then
      toleration :: ts.filter (fun u => !(u.Key == toleration.Key))
    else
      t :: addOrUpdateToleration toleration ts

/-- Modelled from the spec: `v1helper.AddOrUpdateTolerationInPodSpec` is declared
outside this file.  The spec describes "a toleration add-or-update primitive
keyed by toleration key"; it sets the toleration list of the pod spec to
`addOrUpdateToleration` of it.  Nothing but the toleration list changes. -/
def AddOrUpdateTolerationInPodSpec {σ : Type} (spec : PodSpec σ) (toleration : Toleration) :
    PodSpec σ :=
  { spec with Tolerations := addOrUpdateToleration toleration spec.Tolerations }

/-- Modelled from the spec: `labelsutil.CloneAndAddLabel` is declared outside
this file.  The spec describes "a label clone-and-set primitive" with
"clone-and-add semantics": a fresh map with the entries of the given one (a nil
map "must be treated as empty") in which the key is set to the value. -/
def CloneAndAddLabel (labels : Labels) (labelKey labelValue : String) : Labels :=
  let newLabels : LabelMap :=
    match labels with
    | none => ∅
    | some lm => lm
  some (Finmap.insert labelKey labelValue newLabels)

/-- `GetPodTemplateWithGeneration` (source lines 34-64) with the deep-copy
primitive as a parameter.  The error of the deep copy is dropped on line 35; when
the copy fails `obj` is nil and the type assertion of line 36 panics, which is
the result `none`. -/
def GetPodTemplateWithGenerationFrom {μ σ : Type}
    (deepCopy : PodTemplateSpec μ σ → Except String (PodTemplateSpec μ σ))
    (c : Keys) (template : PodTemplateSpec μ σ) (generation : Int) :
    Option (PodTemplateSpec μ σ) :=
  match deepCopy template with
  | Except.error _ => none
  | Except.ok newTemplate =>
    let spec1 := AddOrUpdateTolerationInPodSpec newTemplate.Spec
      { Key := c.TaintNodeNotReady
        Operator := TolerationOpExists
        Value := ""
        Effect := TaintEffectNoExecute
        TolerationSeconds := none }
    let spec2 := AddOrUpdateTolerationInPodSpec spec1
      { Key := c.TaintNodeUnreachable
        Operator := TolerationOpExists
        Value := ""
        Effect := TaintEffectNoExecute
        TolerationSeconds := none }
    let templateGenerationStr := fmt.Sprint generation
    some
      { ObjectMeta :=
          { newTemplate.ObjectMeta with
            Labels := CloneAndAddLabel template.ObjectMeta.Labels
              c.DaemonSetTemplateGenerationKey templateGenerationStr }
        Spec := spec2 }

/-- `GetPodTemplateWithGeneration` (source lines 34-64). -/
def GetPodTemplateWithGeneration {μ σ : Type} (c : Keys) (template : PodTemplateSpec μ σ)
    (generation : Int) : Option (PodTemplateSpec μ σ) :=
  GetPodTemplateWithGenerationFrom DeepCopy c template generation

/-- The toleration of source lines 41-45 and 51-55 for the fault key `key`:
operator `Exists`, effect `NoExecute`, no value and no duration. -/
def faultToleration (key : String) : Toleration :=
  { Key := key
    Operator := TolerationOpExists
    Value := ""
    Effect := TaintEffectNoExecute
    TolerationSeconds := none }

/-- How many entries of a toleration list have the key `key`. -/
def countKey (key : String) (ts : List Toleration) : Nat :=
  ts.countP (fun t => t.Key == key)

/-- The key of a toleration is neither of the two fault keys. -/
def notFaultKey (c : Keys) (t : Toleration) : Bool :=
  t.Key != c.TaintNodeNotReady && t.Key != c.TaintNodeUnreachable

/-! ## `GetPodTemplateWithGeneration` over explicit storage

Go passes a `v1.PodTemplateSpec` by value, but its label map and its toleration
slice are references into storage shared with the caller.  The definitions below
repeat the stamper with that storage made explicit, to state what the call
leaves untouched. -/

/-- The storage behind the reference-typed fields: the map objects and the
backing stores of the slices, each by address (`none` where nothing is
allocated), and the next address the allocator hands out. -/
structure Heap where
  maps : Nat → Option LabelMap
  slices : Nat → Option (List Toleration)
  next : Nat

/-- A pod template as the caller holds it: the label map and the toleration
slice by address (`none` for nil), the other fields by value. -/
structure TemplateRef (μ σ : Type) where
  Labels : Option Nat
  MetaOther : μ
  Tolerations : Option Nat
  SpecOther : σ

/-- The label map a reference stands for. -/
def Heap.readMap (h : Heap) (ref : Option Nat) : Labels :=
  match ref with
  | none => none
  | some a => h.maps a

/-- The toleration list a slice reference stands for; a nil slice is empty. -/
def Heap.readSlice (h : Heap) (ref : Option Nat) : List Toleration :=
  match ref with
  | none => []
  | some a =>
    match h.slices a with
    | some l => l
    | none => []

/-- A new map object at the next free address. -/
def Heap.allocMap (h : Heap) (m : LabelMap) : Heap × Nat :=
  ({ maps := fun a => if a = h.next then some m else h.maps a
     slices := h.slices
     next := h.next + 1 }, h.next)

/-- A new slice backing store at the next free address. -/
def Heap.allocSlice (h : Heap) (l : List Toleration) : Heap × Nat :=
  ({ maps := h.maps
     slices := fun a => if a = h.next then some l else h.slices a
     next := h.next + 1 }, h.next)

/-- Overwriting the map object at an address. -/
def Heap.writeMap (h : Heap) (a : Nat) (m : LabelMap) : Heap :=
  { maps := fun b => if b = a then some m else h.maps b
    slices := h.slices
    next := h.next }

/-- Overwriting the slice backing store at an address. -/
def Heap.writeSlice (h : Heap) (a : Nat) (l : List Toleration) : Heap :=
  { maps := h.maps
    slices := fun b => if b = a then some l else h.slices b
    next := h.next }

/-- The template value a template reference stands for in a storage. -/
def TemplateRef.load {μ σ : Type} (h : Heap) (t : TemplateRef μ σ) : PodTemplateSpec μ σ :=
  { ObjectMeta := { Labels := h.readMap t.Labels, Other := t.MetaOther }
    Spec := { Tolerations := h.readSlice t.Tolerations, Other := t.SpecOther } }

/-- The addresses a template reference holds are allocated in the storage. -/
def TemplateRef.allocatedIn {μ σ : Type} (t : TemplateRef μ σ) (h : Heap) : Bool :=
  t.Labels.all (fun a => decide (a < h.next)) &&
    t.Tolerations.all (fun a => decide (a < h.next))

/-- Modelled from the spec: `api.Scheme.DeepCopy` on explicit storage.  "An
independent deep copy", "a fully independent value": the copy gets a new map
object and a new slice backing store with the contents of the original ones; a
nil map or slice stays nil. -/
def DeepCopyRef {μ σ : Type} (h : Heap) (template : TemplateRef μ σ) :
    Except String (Heap × TemplateRef μ σ) :=
  let r1 : Heap × Option Nat :=
    match h.readMap template.Labels with
    | none => (h, none)
    | some m => ((h.allocMap m).1, some (h.allocMap m).2)
  let r2 : Heap × Option Nat :=
    match template.Tolerations with
    | none => (r1.1, none)
    | some _ =>
      ((r1.1.allocSlice (h.readSlice template.Tolerations)).1,
        some (r1.1.allocSlice (h.readSlice template.Tolerations)).2)
  Except.ok (r2.1,
    { Labels := r1.2
      MetaOther := template.MetaOther
      Tolerations := r2.2
      SpecOther := template.SpecOther })

/-- Modelled from the spec: `v1helper.AddOrUpdateTolerationInPodSpec` on explicit
storage.  The tolerations are inserted "into the copy's toleration list": the
new list is written over the backing store of the pod spec it is given; a pod
spec with a nil slice gets a new backing store.  The result is the new storage
and the new value of the `Tolerations` field. -/
def AddOrUpdateTolerationInPodSpecRef (h : Heap) (tolerations : Option Nat)
    (toleration : Toleration) : Heap × Option Nat :=
  let newTolerations :=
    (AddOrUpdateTolerationInPodSpec
      { Tolerations := h.readSlice tolerations, Other := () } toleration).Tolerations
  match tolerations with
  | some a => (h.writeSlice a newTolerations, some a)
  | none => ((h.allocSlice newTolerations).1, some (h.allocSlice newTolerations).2)

/-- Modelled from the spec: `labelsutil.CloneAndAddLabel` on explicit storage.
"Clone-and-add semantics: never mutate the caller's original label mapping": a
new map object holds the entries of the given one (none for a nil map) and the
key set to the value. -/
def CloneAndAddLabelRef (h : Heap) (labels : Option Nat) (labelKey labelValue : String) :
    Heap × Option Nat :=
  let newLabels : LabelMap :=
    match h.readMap labels with
    | none => ∅
    | some lm => lm
  ((h.allocMap (Finmap.insert labelKey labelValue newLabels)).1,
    some (h.allocMap (Finmap.insert labelKey labelValue newLabels)).2)

/-- `GetPodTemplateWithGeneration` (source lines 34-64) on explicit storage: the
deep copy, the two toleration updates through `&newTemplate.Spec`, the label
clone of `template.ObjectMeta.Labels` assigned to `newTemplate`.  The result is
the storage after the call and the returned template; `none` is the panic of
line 36. -/
def GetPodTemplateWithGenerationRef {μ σ : Type} (c : Keys) (h : Heap)
    (template : TemplateRef μ σ) (generation : Int) : Option (Heap × TemplateRef μ σ) :=
  match DeepCopyRef h template with
  | Except.error _ => none
  | Except.ok (h1, newTemplate) =>
    let r1 := AddOrUpdateTolerationInPodSpecRef h1 newTemplate.Tolerations
      (faultToleration c.TaintNodeNotReady)
    let r2 := AddOrUpdateTolerationInPodSpecRef r1.1 r1.2
      (faultToleration c.TaintNodeUnreachable)
    let templateGenerationStr := fmt.Sprint generation
    let r3 := CloneAndAddLabelRef r2.1 template.Labels
      c.DaemonSetTemplateGenerationKey templateGenerationStr
    some (r3.1,
      { Labels := r3.2
        MetaOther := newTemplate.MetaOther
        Tolerations := r2.2
        SpecOther := newTemplate.SpecOther })

/-- A storage with one map object, at address 0, and one slice backing store, at
address 1: those of the sample template. -/
def sampleHeap : Heap :=
  { maps := fun a => if a = 0 then some (Finmap.insert "app" "x" ∅) else none
    slices := fun a =>
      if a = 1 then
        some [{ Key := "custom", Operator := "Equal", Value := "v", Effect := "NoSchedule",
                TolerationSeconds := none }]
      else none
    next := 2 }

/-- The sample template as a reference into `sampleHeap`. -/
def sampleTemplateRef : TemplateRef Unit Unit :=
  { Labels := some 0, MetaOther := (), Tolerations := some 1, SpecOther := () }

/-! ## `SplitByAvailablePods` -/

/-- The constant `time.Second`, in nanoseconds. -/
def Second : Int := 1000000000

/-- Wrap-around of a signed 64-bit integer. -/
def wrapInt64 (x : Int) : Int :=
  (x + 2 ^ 63) % 2 ^ 64 - 2 ^ 63

/-- Modelled from the spec: `podutil.IsPodReady` is declared outside this file.
The "structural ready condition" of the spec: the pod carries a ready condition
and its status is true. -/
def IsPodReady {μ σ : Type} (pod : Pod μ σ) : Bool :=
  match pod.Status.Ready with
  | some cond => cond.Status == ConditionStatus.True
  | none => false

/-- Modelled from the spec: `podutil.IsPodAvailable` is declared outside this
file.  The spec describes it as "has the pod been continuously ready for at least
`minReadySeconds`, as of the current instant", "reading the pod's ready condition
and its last-transition timestamp, comparing elapsed time against
`minReadySeconds`", where "`minReadySeconds == 0` must make every
structurally-ready pod available immediately regardless of elapsed time".  The
threshold is an `int32` number of seconds, turned into an `int64` number of
nanoseconds by a wrapping multiplication with `Second`. -/
def IsPodAvailable {μ σ : Type} (pod : Pod μ σ) (minReadySeconds : Int) (now : Int) : Bool :=
  match pod.Status.Ready with
  | none => false
  | some cond =>
    cond.Status == ConditionStatus.True &&
      (minReadySeconds == 0 ||
        decide (wrapInt64 (minReadySeconds * Second) ≤ now - cond.LastTransitionTime))

/-- The loop of `SplitByAvailablePods` (source lines 77-83).  `isPodAvailable`
stands for `podutil.IsPodAvailable`; `now k` is the value of the `k`-th call of
`metav1.Now()`, and `tick` counts the calls made so far: the clock is read once
for every pod. -/
def splitLoop {μ σ : Type} (isPodAvailable : Pod μ σ → Int → Int → Bool) (now : Nat → Int)
    (minReadySeconds : Int) :
    List (Pod μ σ) → Nat → List (Pod μ σ) → List (Pod μ σ) → List (Pod μ σ) × List (Pod μ σ)
  | [], _, availablePods, unavailablePods => (availablePods, unavailablePods)
  | pod :: rest, tick, availablePods, unavailablePods =>
    if isPodAvailable pod minReadySeconds (now tick) then
      splitLoop isPodAvailable now minReadySeconds rest (tick + 1)
        (availablePods ++ [pod]) unavailablePods
    else
      splitLoop isPodAvailable now minReadySeconds rest (tick + 1)
        availablePods (unavailablePods ++ [pod])

/-- `SplitByAvailablePods` (source lines 74-85), with the availability predicate
and the clock as parameters.  The result is `(availablePods, unavailablePods)`. -/
def SplitByAvailablePods {μ σ : Type} (isPodAvailable : Pod μ σ → Int → Int → Bool)
    (now : Nat → Int) (minReadySeconds : Int) (pods : List (Pod μ σ)) :
    List (Pod μ σ) × List (Pod μ σ) :=
  splitLoop isPodAvailable now minReadySeconds pods 0 [] []

/-- The list `l` is an interleaving of `a` and `b`: every position of `l` goes to
exactly one of `a` and `b`, and each of them keeps the order of `l`. -/
inductive Interleaving {α : Type} : List α → List α → List α → Prop where
  | nil : Interleaving [] [] []
  | left (x : α) {a b l : List α} : Interleaving a b l → Interleaving (x :: a) b (x :: l)
  | right (x : α) {a b l : List α} : Interleaving a b l → Interleaving a (x :: b) (x :: l)

/-! ## Concrete inputs -/

/-- Sample values of the three imported constants. -/
def sampleKeys : Keys :=
  { DaemonSetTemplateGenerationKey := "pod-template-generation"
    TaintNodeNotReady := "node.alpha.kubernetes.io/notReady"
    TaintNodeUnreachable := "node.alpha.kubernetes.io/unreachable" }

/-- A template with the label `app = x` and the single toleration `custom`. -/
def sampleTemplate : PodTemplateSpec Unit Unit :=
  { ObjectMeta := { Labels := some (Finmap.insert "app" "x" ∅), Other := () }
    Spec :=
      { Tolerations :=
          [{ Key := "custom", Operator := "Equal", Value := "v", Effect := "NoSchedule",
             TolerationSeconds := none }]
        Other := () } }

/-- A template whose toleration list names the not-ready fault key twice. -/
def duplicateTemplate : PodTemplateSpec Unit Unit :=
  { ObjectMeta := { Labels := none, Other := () }
    Spec :=
      { Tolerations :=
          [{ Key := "node.alpha.kubernetes.io/notReady", Operator := "Equal", Value := "a",
             Effect := "NoSchedule", TolerationSeconds := some 300 },
           { Key := "node.alpha.kubernetes.io/notReady", Operator := "Exists", Value := "",
             Effect := "NoExecute", TolerationSeconds := none }]
        Other := () } }

/-- A pod with the given label map, no tolerations and the given ready condition. -/
def samplePod (labels : Labels) (ready : Option PodReadyCondition) : Pod Unit Unit :=
  { ObjectMeta := { Labels := labels, Other := () }
    Spec := { Tolerations := [], Other := () }
    Status := { Ready := ready } }

/-- A template with no labels whose only toleration already uses the not-ready
fault key, with another operator, value, effect and duration. -/
def conflictTemplate : PodTemplateSpec Unit Unit :=
  { ObjectMeta := { Labels := none, Other := () }
    Spec :=
      { Tolerations :=
          [{ Key := "node.alpha.kubernetes.io/notReady", Operator := "Equal", Value := "a",
             Effect := "NoSchedule", TolerationSeconds := some 300 }]
        Other := () } }

/-- A deep-copy primitive that fails on every template: it hands back an error
and no copy. -/
def failingDeepCopy (_ : PodTemplateSpec Unit Unit) :
    Except String (PodTemplateSpec Unit Unit) :=
  Except.error "unsupported object"

/-- A pod whose ready condition has been true since instant 0. -/
def readyPod : Pod Unit Unit :=
  samplePod none (some { Status := ConditionStatus.True, LastTransitionTime := 0 })

/-- A clock that stands at 5 s at every reading. -/
def earlyClock (_ : Nat) : Int := 5000000000

/-- A clock that stands at 20 s at every reading. -/
def lateClock (_ : Nat) : Int := 20000000000

/-- A clock that advances between its first and its second reading, from one
nanosecond before 10 s to 10 s. -/
def tickingClock (k : Nat) : Int :=
  if k = 0 then 9999999999 else 10000000000

/-! ## Decimal rendering is injective -/

theorem digitChar_props : ∀ d, d < 10 →
    (Nat.digitChar d).toNat - 48 = d ∧ Nat.digitChar d ≠ '-' := by
  decide

theorem foldl_decode_append (v : Nat) (pre : List Char) (ch : Char) :
    List.foldl (fun v ch => 10 * v + (ch.toNat - 48)) v (pre ++ [ch])
      = 10 * List.foldl (fun v ch => 10 * v + (ch.toNat - 48)) v pre + (ch.toNat - 48) := by
  simp [List.foldl_append]

/-- With enough fuel, `Nat.toDigitsCore 10` puts in front of the accumulator a
non-empty list of characters, none of them `-`, that decodes to the number. -/
theorem toDigitsCore_spec : ∀ (fuel n : Nat) (acc : List Char), n < fuel →
    ∃ pre, Nat.toDigitsCore 10 fuel n acc = pre ++ acc ∧ decodeDigits pre = n ∧
      pre ≠ [] ∧ ∀ ch ∈ pre, ch ≠ '-' := by
  intro fuel
  induction fuel with
  | zero => intro n acc h; omega
  | succ fuel ih =>
    intro n acc h
    have hd := digitChar_props (n % 10) (Nat.mod_lt _ (by decide))
    by_cases h0 : n / 10 = 0
    · refine ⟨[Nat.digitChar (n % 10)], ?_, ?_, by simp, ?_⟩
      · simp [Nat.toDigitsCore, h0]
      · simp only [decodeDigits, List.foldl_cons, List.foldl_nil, hd.1]
        omega
      · intro ch hch
        simp only [List.mem_singleton] at hch
        rw [hch]; exact hd.2
    · have hlt : n / 10 < fuel := by omega
      obtain ⟨pre, hpre, hdec, _, hall⟩ := ih (n / 10) (Nat.digitChar (n % 10) :: acc) hlt
      refine ⟨pre ++ [Nat.digitChar (n % 10)], ?_, ?_, by simp, ?_⟩
      · simp [Nat.toDigitsCore, h0, hpre]
      · unfold decodeDigits at hdec ⊢
        rw [foldl_decode_append, hdec, hd.1]
        omega
      · intro ch hch
        rcases List.mem_append.1 hch with h1 | h1
        · exact hall ch h1
        · simp only [List.mem_singleton] at h1
          rw [h1]; exact hd.2

theorem repr_spec (n : Nat) :
    decodeDigits (Nat.repr n).data = n ∧ (Nat.repr n).data ≠ [] ∧
      ∀ ch ∈ (Nat.repr n).data, ch ≠ '-' := by
  obtain ⟨pre, hpre, hdec, hne, hall⟩ := toDigitsCore_spec (n + 1) n [] (Nat.lt_succ_self n)
  have h : (Nat.repr n).data = pre := by
    simp [Nat.repr, Nat.toDigits, hpre, List.asString]
  rw [h]
  exact ⟨hdec, hne, hall⟩

theorem repr_injective {a b : Nat} (h : Nat.repr a = Nat.repr b) : a = b := by
  have ha := (repr_spec a).1
  rw [h] at ha
  exact ha.symm.trans (repr_spec b).1

theorem minus_repr_ne_repr (a b : Nat) : "-" ++ Nat.repr a ≠ Nat.repr b := by
  intro h
  have hd : ("-" ++ Nat.repr a).data = (Nat.repr b).data := by rw [h]
  have hmem : '-' ∈ (Nat.repr b).data := by
    rw [← hd]
    simp [String.data_append]
  exact (repr_spec b).2.2 '-' hmem rfl

/-- The decimal rendering of an integer determines the integer. -/
theorem Sprint_injective {a b : Int} (h : fmt.Sprint a = fmt.Sprint b) : a = b := by
  cases a with
  | ofNat m =>
    cases b with
    | ofNat k =>
      simp only [fmt.Sprint] at h
      rw [repr_injective h]
    | negSucc k =>
      simp only [fmt.Sprint] at h
      exact absurd h.symm (minus_repr_ne_repr _ _)
  | negSucc m =>
    cases b with
    | ofNat k =>
      simp only [fmt.Sprint] at h
      exact absurd h (minus_repr_ne_repr _ _)
    | negSucc k =>
      simp only [fmt.Sprint] at h
      have hd : ("-" ++ Nat.repr (m + 1)).data = ("-" ++ Nat.repr (k + 1)).data := by rw [h]
      simp only [String.data_append, List.append_cancel_left_eq] at hd
      have hk : m + 1 = k + 1 := repr_injective (String.ext hd)
      have : m = k := by omega
      rw [this]

/-! ## Reading the label map -/

theorem index_eq (m : Labels) (k : String) :
    m.index k = (match m.get? k with
      | some v => (v, true)
      | none => ("", false)) := rfl

theorem IsPodUpdated_eq_true_iff {μ σ : Type} (c : Keys) (G : Int) (pod : Pod μ σ) :
    IsPodUpdated c G pod = true ↔
      pod.ObjectMeta.Labels.get? c.DaemonSetTemplateGenerationKey = some (fmt.Sprint G) := by
  unfold IsPodUpdated
  rw [index_eq]
  cases h : pod.ObjectMeta.Labels.get? c.DaemonSetTemplateGenerationKey with
  | none => simp
  | some v => simp

theorem get?_CloneAndAddLabel (labels : Labels) (key value k : String) :
    (CloneAndAddLabel labels key value).get? k =
      if k = key then some value else labels.get? k := by
  unfold CloneAndAddLabel
  by_cases hk : k = key
  · subst hk
    simp [Labels.get?, Finmap.lookup_insert]
  · cases labels with
    | none => simp [Labels.get?, hk, Finmap.lookup_insert_of_ne]
    | some lm => simp [Labels.get?, hk, Finmap.lookup_insert_of_ne]

/-! ## The stamped template -/

/-- The value the stamper returns, written out: the deep copy succeeds. -/
theorem GetPodTemplateWithGeneration_eq {μ σ : Type} (c : Keys) (T : PodTemplateSpec μ σ)
    (G : Int) :
    GetPodTemplateWithGeneration c T G = some
      { ObjectMeta :=
          { T.ObjectMeta with
            Labels := CloneAndAddLabel T.ObjectMeta.Labels
              c.DaemonSetTemplateGenerationKey (fmt.Sprint G) }
        Spec := AddOrUpdateTolerationInPodSpec
          (AddOrUpdateTolerationInPodSpec T.Spec (faultToleration c.TaintNodeNotReady))
          (faultToleration c.TaintNodeUnreachable) } := rfl

/-! ## Adding or updating a toleration -/

theorem tolerations_AddOrUpdate {σ : Type} (spec : PodSpec σ) (tol : Toleration) :
    (AddOrUpdateTolerationInPodSpec spec tol).Tolerations =
      addOrUpdateToleration tol spec.Tolerations := rfl

theorem other_AddOrUpdate {σ : Type} (spec : PodSpec σ) (tol : Toleration) :
    (AddOrUpdateTolerationInPodSpec spec tol).Other = spec.Other := rfl

theorem addOrUpdate_cons_match (tol t : Toleration) (ts : List Toleration)
    (h : t.Key = tol.Key) :
    addOrUpdateToleration tol (t :: ts) =
      tol :: ts.filter (fun u => !(u.Key == tol.Key)) := by
  have hb : (t.Key == tol.Key) = true := by simp [h]
  simp only [addOrUpdateToleration, hb, if_true]

theorem addOrUpdate_cons_other (tol t : Toleration) (ts : List Toleration)
    (h : t.Key ≠ tol.Key) :
    addOrUpdateToleration tol (t :: ts) = t :: addOrUpdateToleration tol ts := by
  have hb : (t.Key == tol.Key) = false := by simp [h]
  simp only [addOrUpdateToleration, hb]
  rfl

theorem addOrUpdate_mem_self (tol : Toleration) :
    ∀ l : List Toleration, tol ∈ addOrUpdateToleration tol l := by
  intro l
  induction l with
  | nil => simp [addOrUpdateToleration]
  | cons t ts ih =>
    by_cases h : t.Key = tol.Key
    · rw [addOrUpdate_cons_match tol t ts h]
      exact List.mem_cons_self _ _
    · rw [addOrUpdate_cons_other tol t ts h]
      exact List.mem_cons_of_mem _ ih

theorem addOrUpdate_mem_of_mem (tol x : Toleration) (hk : x.Key ≠ tol.Key) :
    ∀ l : List Toleration, x ∈ l → x ∈ addOrUpdateToleration tol l := by
  intro l
  induction l with
  | nil => intro hx; exact absurd hx (List.not_mem_nil _)
  | cons t ts ih =>
    intro hx
    by_cases h : t.Key = tol.Key
    · rw [addOrUpdate_cons_match tol t ts h]
      rcases List.mem_cons.1 hx with hxt | hxt
      · rw [hxt] at hk
        exact absurd h hk
      · exact List.mem_cons_of_mem _ (List.mem_filter.2 ⟨hxt, by simp [hk]⟩)
    · rw [addOrUpdate_cons_other tol t ts h]
      rcases List.mem_cons.1 hx with hxt | hxt
      · rw [hxt]
        exact List.mem_cons_self _ _
      · exact List.mem_cons_of_mem _ (ih hxt)

theorem addOrUpdate_eq_of_mem (tol x : Toleration) (hk : x.Key = tol.Key) :
    ∀ l : List Toleration, x ∈ addOrUpdateToleration tol l → x = tol := by
  intro l
  induction l with
  | nil =>
    intro hx
    simpa [addOrUpdateToleration] using hx
  | cons t ts ih =>
    intro hx
    by_cases h : t.Key = tol.Key
    · rw [addOrUpdate_cons_match tol t ts h] at hx
      rcases List.mem_cons.1 hx with hxt | hxt
      · exact hxt
      · have := (List.mem_filter.1 hxt).2
        simp [hk] at this
    · rw [addOrUpdate_cons_other tol t ts h] at hx
      rcases List.mem_cons.1 hx with hxt | hxt
      · rw [hxt] at hk
        exact absurd hk h
      · exact ih hxt

theorem addOrUpdate_mem_inv (tol x : Toleration) (hk : x.Key ≠ tol.Key) :
    ∀ l : List Toleration, x ∈ addOrUpdateToleration tol l → x ∈ l := by
  intro l
  induction l with
  | nil =>
    intro hx
    have : x = tol := by simpa [addOrUpdateToleration] using hx
    rw [this] at hk
    exact absurd rfl hk
  | cons t ts ih =>
    intro hx
    by_cases h : t.Key = tol.Key
    · rw [addOrUpdate_cons_match tol t ts h] at hx
      rcases List.mem_cons.1 hx with hxt | hxt
      · rw [hxt] at hk
        exact absurd rfl hk
      · exact List.mem_cons_of_mem _ (List.mem_filter.1 hxt).1
    · rw [addOrUpdate_cons_other tol t ts h] at hx
      rcases List.mem_cons.1 hx with hxt | hxt
      · rw [hxt]
        exact List.mem_cons_self _ _
      · exact List.mem_cons_of_mem _ (ih hxt)

/-- Dropping the entries with one key removes all entries of that key and
leaves the number of entries of any other key. -/
theorem countKey_filter_ne (key k : String) (l : List Toleration) :
    countKey k (l.filter (fun u => !(u.Key == key))) =
      if key = k then 0 else countKey k l := by
  unfold countKey
  induction l with
  | nil => simp
  | cons t ts ih =>
    by_cases h : t.Key = key
    · have hb : (!(t.Key == key)) = false := by simp [h]
      rw [List.filter_cons, hb]
      simp only [Bool.false_eq_true, if_false]
      rw [ih]
      by_cases hk : key = k
      · simp [hk]
      · have hne : (t.Key == k) = false := by simp [h, hk]
        rw [List.countP_cons, hne]
        simp [hk]
    · have hb : (!(t.Key == key)) = true := by simp [h]
      rw [List.filter_cons, hb]
      simp only [if_true]
      rw [List.countP_cons, ih, List.countP_cons]
      by_cases hk : key = k
      · have hne : (t.Key == k) = false := by
          rw [← hk]; simp [h]
        simp [hk, hne]
      · simp [hk]

/-- The number of entries with a key after adding or updating: exactly one with
the key of the given toleration; the entries with another key keep their
number. -/
theorem addOrUpdate_countKey (tol : Toleration) (k : String) :
    ∀ l : List Toleration, countKey k (addOrUpdateToleration tol l) =
      if tol.Key = k then 1 else countKey k l := by
  intro l
  induction l with
  | nil =>
    by_cases hk : tol.Key = k
    · simp [addOrUpdateToleration, countKey, hk]
    · simp [addOrUpdateToleration, countKey, hk]
  | cons t ts ih =>
    by_cases h : t.Key = tol.Key
    · rw [addOrUpdate_cons_match tol t ts h]
      have hc := countKey_filter_ne tol.Key k ts
      unfold countKey at hc ⊢
      rw [List.countP_cons, hc]
      by_cases hk : tol.Key = k
      · simp [hk]
      · have hne : (t.Key == k) = false := by simp [h, hk]
        rw [List.countP_cons, hne]
        simp [hk]
    · rw [addOrUpdate_cons_other tol t ts h]
      unfold countKey at ih ⊢
      rw [List.countP_cons, ih, List.countP_cons]
      by_cases hk : tol.Key = k
      · have hne : (t.Key == k) = false := by
          rw [← hk]; simp [h]
        simp [hk, hne]
      · simp [hk]

/-- The given toleration is in the list afterwards. -/
theorem mem_AddOrUpdate_self {σ : Type} (spec : PodSpec σ) (tol : Toleration) :
    tol ∈ (AddOrUpdateTolerationInPodSpec spec tol).Tolerations :=
  addOrUpdate_mem_self tol spec.Tolerations

/-- An entry with another key stays in the list. -/
theorem mem_AddOrUpdate_of_mem {σ : Type} (spec : PodSpec σ) (tol x : Toleration)
    (hx : x ∈ spec.Tolerations) (hk : x.Key ≠ tol.Key) :
    x ∈ (AddOrUpdateTolerationInPodSpec spec tol).Tolerations :=
  addOrUpdate_mem_of_mem tol x hk spec.Tolerations hx

/-- Every entry that has the key of the given toleration is the given one. -/
theorem eq_of_mem_AddOrUpdate {σ : Type} (spec : PodSpec σ) (tol x : Toleration)
    (hx : x ∈ (AddOrUpdateTolerationInPodSpec spec tol).Tolerations) (hk : x.Key = tol.Key) :
    x = tol :=
  addOrUpdate_eq_of_mem tol x hk spec.Tolerations hx

/-- An entry of the new list with another key was in the old list. -/
theorem mem_of_mem_AddOrUpdate {σ : Type} (spec : PodSpec σ) (tol x : Toleration)
    (hx : x ∈ (AddOrUpdateTolerationInPodSpec spec tol).Tolerations) (hk : x.Key ≠ tol.Key) :
    x ∈ spec.Tolerations :=
  addOrUpdate_mem_inv tol x hk spec.Tolerations hx

/-- The number of entries with a key after adding or updating a pod spec. -/
theorem countKey_AddOrUpdate {σ : Type} (spec : PodSpec σ) (tol : Toleration) (k : String) :
    countKey k (AddOrUpdateTolerationInPodSpec spec tol).Tolerations =
      if tol.Key = k then 1 else countKey k spec.Tolerations :=
  addOrUpdate_countKey tol k spec.Tolerations

/-! ## Claims on `IsPodUpdated` and on the stamped labels -/

/-- C1: `IsPodUpdated c G pod` is true exactly when the label map of the pod holds
the generation key with the value `fmt.Sprint G`.  It is false for every `G` on a
nil map and on a map without the key, and false for the values `03` and `+3` when
`G = 3`; the rendering is decimal, with a `-` for negatives and no leading zero. -/
theorem IsPodUpdated_iff_generation_label {μ σ : Type} (c : Keys) (G : Int) (pod : Pod μ σ)
    (lm : LabelMap) :
    (IsPodUpdated c G pod = true ↔
      pod.ObjectMeta.Labels.get? c.DaemonSetTemplateGenerationKey = some (fmt.Sprint G)) ∧
    IsPodUpdated c G { pod with ObjectMeta := { pod.ObjectMeta with Labels := none } } = false ∧
    IsPodUpdated c G { pod with ObjectMeta := { pod.ObjectMeta with
      Labels := some (lm.erase c.DaemonSetTemplateGenerationKey) } } = false ∧
    IsPodUpdated c 3 { pod with ObjectMeta := { pod.ObjectMeta with
      Labels := some (lm.insert c.DaemonSetTemplateGenerationKey "03") } } = false ∧
    IsPodUpdated c 3 { pod with ObjectMeta := { pod.ObjectMeta with
      Labels := some (lm.insert c.DaemonSetTemplateGenerationKey "+3") } } = false ∧
    IsPodUpdated c 3 { pod with ObjectMeta := { pod.ObjectMeta with
      Labels := some (lm.insert c.DaemonSetTemplateGenerationKey "3") } } = true ∧
    fmt.Sprint 0 = "0" ∧ fmt.Sprint 3 = "3" ∧ fmt.Sprint (-3) = "-3" ∧
    fmt.Sprint 1203 = "1203" := by
  refine ⟨IsPodUpdated_eq_true_iff c G pod, ?_, ?_, ?_, ?_, ?_, by decide, by decide, by decide,
    by decide⟩
  · rw [Bool.eq_false_iff]
    intro h
    rw [IsPodUpdated_eq_true_iff] at h
    simp [Labels.get?] at h
  · rw [Bool.eq_false_iff]
    intro h
    rw [IsPodUpdated_eq_true_iff] at h
    simp [Labels.get?, Finmap.lookup_erase] at h
  · rw [Bool.eq_false_iff]
    intro h
    rw [IsPodUpdated_eq_true_iff] at h
    simp only [Labels.get?, Finmap.lookup_insert, Option.some.injEq] at h
    exact absurd h (by decide)
  · rw [Bool.eq_false_iff]
    intro h
    rw [IsPodUpdated_eq_true_iff] at h
    simp only [Labels.get?, Finmap.lookup_insert, Option.some.injEq] at h
    exact absurd h (by decide)
  · rw [IsPodUpdated_eq_true_iff]
    simp only [Labels.get?, Finmap.lookup_insert, Option.some.injEq]
    decide

/-- C2: round trip between the stamper and the comparator.  When a pod carries,
under the generation key, what `GetPodTemplateWithGeneration c T G` put under that
key, `IsPodUpdated c G2 pod` is true exactly when `G2 = G`. -/
theorem IsPodUpdated_stamped_iff {μ σ μ2 σ2 : Type} (c : Keys) (T : PodTemplateSpec μ σ)
    (G G2 : Int) (pod : Pod μ2 σ2)
    (hpod : (GetPodTemplateWithGeneration c T G).map
        (fun r => r.ObjectMeta.Labels.get? c.DaemonSetTemplateGenerationKey) =
      some (pod.ObjectMeta.Labels.get? c.DaemonSetTemplateGenerationKey)) :
    IsPodUpdated c G2 pod = true ↔ G2 = G := by
  rw [GetPodTemplateWithGeneration_eq] at hpod
  simp only [Option.map_some', Option.some.injEq, get?_CloneAndAddLabel, if_true] at hpod
  rw [IsPodUpdated_eq_true_iff, ← hpod]
  constructor
  · intro h
    exact (Sprint_injective (Option.some.inj h)).symm
  · intro h
    rw [h]

/-- Witness of C2: a pod that carries the label of the sample template stamped
with generation 3 is at generation 3. -/
theorem IsPodUpdated_stamped_iff_witness :
    (GetPodTemplateWithGeneration sampleKeys sampleTemplate 3).map
        (fun r => r.ObjectMeta.Labels.get? sampleKeys.DaemonSetTemplateGenerationKey) =
      some ((samplePod (some (Finmap.insert "pod-template-generation" "3" ∅))
        none).ObjectMeta.Labels.get? sampleKeys.DaemonSetTemplateGenerationKey) ∧
    (IsPodUpdated sampleKeys 3
      (samplePod (some (Finmap.insert "pod-template-generation" "3" ∅)) none) = true ↔
        (3 : Int) = 3) :=
  ⟨by decide, IsPodUpdated_stamped_iff sampleKeys sampleTemplate 3 3
    (samplePod (some (Finmap.insert "pod-template-generation" "3" ∅)) none) (by decide)⟩

/-- C3: the stamper returns a template whose label map holds `fmt.Sprint G` under
the generation key and, under every other key, exactly what the label map of `T`
holds there (the same value, or nothing); a nil map counts as empty. -/
theorem GetPodTemplateWithGeneration_labels {μ σ : Type} (c : Keys) (T : PodTemplateSpec μ σ)
    (G : Int) :
    ∃ r, GetPodTemplateWithGeneration c T G = some r ∧
      ∀ k : String, r.ObjectMeta.Labels.get? k =
        if k = c.DaemonSetTemplateGenerationKey then some (fmt.Sprint G)
        else T.ObjectMeta.Labels.get? k :=
  ⟨_, GetPodTemplateWithGeneration_eq c T G, fun k => get?_CloneAndAddLabel _ _ _ k⟩

/-! ## Claims on the stamped tolerations -/

/-- The entries of the stamped list with a fault key are the canonical ones. -/
theorem fault_entries_canonical {σ : Type} (c : Keys) (spec : PodSpec σ) (x : Toleration)
    (hx : x ∈ (AddOrUpdateTolerationInPodSpec
      (AddOrUpdateTolerationInPodSpec spec (faultToleration c.TaintNodeNotReady))
      (faultToleration c.TaintNodeUnreachable)).Tolerations) :
    (x.Key = c.TaintNodeNotReady → x = faultToleration c.TaintNodeNotReady) ∧
    (x.Key = c.TaintNodeUnreachable → x = faultToleration c.TaintNodeUnreachable) := by
  have hsecond : x.Key = c.TaintNodeUnreachable → x = faultToleration c.TaintNodeUnreachable :=
    fun hk => eq_of_mem_AddOrUpdate _ _ x hx hk
  refine ⟨?_, hsecond⟩
  intro hk
  by_cases hsame : c.TaintNodeNotReady = c.TaintNodeUnreachable
  · rw [hsame]
    exact hsecond (hk.trans hsame)
  · have hne : x.Key ≠ (faultToleration c.TaintNodeUnreachable).Key := by
      rw [hk]; exact hsame
    exact eq_of_mem_AddOrUpdate _ _ x (mem_of_mem_AddOrUpdate _ _ x hx hne) hk

/-- The stamped list has exactly one entry with each fault key. -/
theorem countKey_stamped {σ : Type} (c : Keys) (spec : PodSpec σ) :
    countKey c.TaintNodeNotReady (AddOrUpdateTolerationInPodSpec
      (AddOrUpdateTolerationInPodSpec spec (faultToleration c.TaintNodeNotReady))
      (faultToleration c.TaintNodeUnreachable)).Tolerations = 1 ∧
    countKey c.TaintNodeUnreachable (AddOrUpdateTolerationInPodSpec
      (AddOrUpdateTolerationInPodSpec spec (faultToleration c.TaintNodeNotReady))
      (faultToleration c.TaintNodeUnreachable)).Tolerations = 1 := by
  have hkey : ∀ k : String, (faultToleration k).Key = k := fun _ => rfl
  have e1 := countKey_AddOrUpdate spec (faultToleration c.TaintNodeNotReady)
    c.TaintNodeNotReady
  have e2 := countKey_AddOrUpdate
    (AddOrUpdateTolerationInPodSpec spec (faultToleration c.TaintNodeNotReady))
    (faultToleration c.TaintNodeUnreachable)
  constructor
  · rw [e2, e1, hkey, hkey, if_pos rfl]
    split <;> rfl
  · rw [e2, hkey, if_pos rfl]

/-- C4: the stamper returns a template whose toleration list contains the entry
with key `TaintNodeNotReady`, operator `Exists`, effect `NoExecute`, no value and
no `TolerationSeconds`, and the same entry with key `TaintNodeUnreachable`. -/
theorem GetPodTemplateWithGeneration_fault_tolerations {μ σ : Type} (c : Keys)
    (T : PodTemplateSpec μ σ) (G : Int) :
    ∃ r, GetPodTemplateWithGeneration c T G = some r ∧
      ({ Key := c.TaintNodeNotReady, Operator := TolerationOpExists, Value := "",
         Effect := TaintEffectNoExecute, TolerationSeconds := none } : Toleration)
        ∈ r.Spec.Tolerations ∧
      ({ Key := c.TaintNodeUnreachable, Operator := TolerationOpExists, Value := "",
         Effect := TaintEffectNoExecute, TolerationSeconds := none } : Toleration)
        ∈ r.Spec.Tolerations := by
  refine ⟨_, GetPodTemplateWithGeneration_eq c T G, ?_, ?_⟩
  · by_cases hsame : c.TaintNodeNotReady = c.TaintNodeUnreachable
    · rw [hsame]
      exact mem_AddOrUpdate_self _ (faultToleration c.TaintNodeUnreachable)
    · exact mem_AddOrUpdate_of_mem _ _ (faultToleration c.TaintNodeNotReady)
        (mem_AddOrUpdate_self _ _) hsame
  · exact mem_AddOrUpdate_self _ (faultToleration c.TaintNodeUnreachable)

/-- C5: whatever tolerations `T` starts with, also entries that already use a
fault key with another operator, effect, value or duration and also duplicates,
the stamped template and the template stamped again with the same `G` each have
exactly one entry with key `TaintNodeNotReady` and exactly one with key
`TaintNodeUnreachable`; an entry with a fault key is the canonical entry for
that key. -/
theorem GetPodTemplateWithGeneration_exactly_one_per_fault_key {μ σ : Type} (c : Keys)
    (T : PodTemplateSpec μ σ) (G : Int) :
    ∃ r r2, GetPodTemplateWithGeneration c T G = some r ∧
      GetPodTemplateWithGeneration c r G = some r2 ∧
      countKey c.TaintNodeNotReady r.Spec.Tolerations = 1 ∧
      countKey c.TaintNodeUnreachable r.Spec.Tolerations = 1 ∧
      countKey c.TaintNodeNotReady r2.Spec.Tolerations = 1 ∧
      countKey c.TaintNodeUnreachable r2.Spec.Tolerations = 1 ∧
      (∀ x ∈ r.Spec.Tolerations,
        (x.Key = c.TaintNodeNotReady → x = faultToleration c.TaintNodeNotReady) ∧
        (x.Key = c.TaintNodeUnreachable → x = faultToleration c.TaintNodeUnreachable)) ∧
      (∀ x ∈ r2.Spec.Tolerations,
        (x.Key = c.TaintNodeNotReady → x = faultToleration c.TaintNodeNotReady) ∧
        (x.Key = c.TaintNodeUnreachable → x = faultToleration c.TaintNodeUnreachable)) := by
  refine ⟨_, _, GetPodTemplateWithGeneration_eq c T G, GetPodTemplateWithGeneration_eq c _ G,
    ?_, ?_, ?_, ?_, ?_, ?_⟩
  · exact (countKey_stamped c T.Spec).1
  · exact (countKey_stamped c T.Spec).2
  · exact (countKey_stamped c _).1
  · exact (countKey_stamped c _).2
  · intro x hx
    exact fault_entries_canonical c T.Spec x hx
  · intro x hx
    exact fault_entries_canonical c _ x hx

/-- The stamper on the two sample templates that already use the not-ready
fault key, once with other settings and once twice: one entry with that key
afterwards. -/
theorem stamped_samples_one_entry :
    (GetPodTemplateWithGeneration sampleKeys conflictTemplate 3).map
      (fun r => countKey sampleKeys.TaintNodeNotReady r.Spec.Tolerations) = some 1 ∧
    (GetPodTemplateWithGeneration sampleKeys duplicateTemplate 3).map
      (fun r => countKey sampleKeys.TaintNodeNotReady r.Spec.Tolerations) = some 1 ∧
    (GetPodTemplateWithGeneration sampleKeys duplicateTemplate 3).map
      (fun r => r.Spec.Tolerations.length) = some 2 := by
  decide

/-- C10: the stamper returns a copy of `T` that differs from `T` in nothing but
the label map and the toleration list: the other fields of the object metadata
and of the pod spec are those of `T`. -/
theorem GetPodTemplateWithGeneration_frame {μ σ : Type} (c : Keys) (T : PodTemplateSpec μ σ)
    (G : Int) :
    ∃ r, GetPodTemplateWithGeneration c T G = some r ∧
      r.ObjectMeta.Other = T.ObjectMeta.Other ∧
      r.Spec.Other = T.Spec.Other ∧
      r = { ObjectMeta := { T.ObjectMeta with Labels := r.ObjectMeta.Labels }
            Spec := { T.Spec with Tolerations := r.Spec.Tolerations } } := by
  refine ⟨_, GetPodTemplateWithGeneration_eq c T G, rfl, ?_, ?_⟩
  · simp only [other_AddOrUpdate]
  · rfl

/-! ## The availability split -/

/-- The loop appends to each accumulator the pods of its kind, in input order;
the pod at offset `j` of the remaining list is judged at the instant
`now (tick + j)`. -/
theorem splitLoop_eq {μ σ : Type} (p : Pod μ σ → Int → Int → Bool) (now : Nat → Int)
    (m : Int) : ∀ (rest : List (Pod μ σ)) (tick : Nat) (a u : List (Pod μ σ)),
    splitLoop p now m rest tick a u =
      (a ++ ((rest.enumFrom tick).filter (fun ip => p ip.2 m (now ip.1))).map Prod.snd,
       u ++ ((rest.enumFrom tick).filter (fun ip => !p ip.2 m (now ip.1))).map Prod.snd) := by
  intro rest
  induction rest with
  | nil => intro tick a u; simp [splitLoop]
  | cons pod rest ih =>
    intro tick a u
    by_cases h : p pod m (now tick) = true
    · simp [splitLoop, h, ih, List.enumFrom_cons]
    · simp [splitLoop, h, ih, List.enumFrom_cons]

theorem SplitByAvailablePods_eq {μ σ : Type} (p : Pod μ σ → Int → Int → Bool)
    (now : Nat → Int) (m : Int) (pods : List (Pod μ σ)) :
    SplitByAvailablePods p now m pods =
      ((pods.enum.filter (fun ip => p ip.2 m (now ip.1))).map Prod.snd,
       (pods.enum.filter (fun ip => !p ip.2 m (now ip.1))).map Prod.snd) := by
  unfold SplitByAvailablePods
  rw [splitLoop_eq]
  simp [List.enum]

/-- Filtering a list by a test and by its negation gives two lists of which the
list is an interleaving, also under a map. -/
theorem interleaving_filter_map {α β : Type} (f : β → α) (q : β → Bool) :
    ∀ L : List β, Interleaving ((L.filter q).map f) ((L.filter (fun b => !q b)).map f)
      (L.map f) := by
  intro L
  induction L with
  | nil => exact Interleaving.nil
  | cons b L ih =>
    by_cases h : q b = true
    · simp only [List.filter_cons, h, if_true, List.map_cons, Bool.not_true]
      exact Interleaving.left (f b) ih
    · have hf : q b = false := by simpa using h
      simp only [List.filter_cons, hf, List.map_cons, Bool.not_false, if_true]
      exact Interleaving.right (f b) ih

theorem length_filter_add_length_filter_not {β : Type} (q : β → Bool) :
    ∀ L : List β, (L.filter q).length + (L.filter (fun b => !q b)).length = L.length := by
  intro L
  induction L with
  | nil => rfl
  | cons b L ih =>
    by_cases h : q b = true
    · simp only [List.filter_cons, h, if_true, List.length_cons, Bool.not_true]
      simp only [Bool.false_eq_true, if_false]
      omega
    · have hf : q b = false := by simpa using h
      simp only [List.filter_cons, hf, List.length_cons, Bool.not_false, if_true]
      simp only [Bool.false_eq_true, if_false]
      omega

/-- C6: the pod at input position `i` goes to the available result exactly when
the availability predicate holds of it, the threshold and the clock value read
when it is examined, and to the unavailable result otherwise: the two results
are the input filtered by the predicate and by its negation, in input order. -/
theorem SplitByAvailablePods_filter {μ σ : Type} (isPodAvailable : Pod μ σ → Int → Int → Bool)
    (now : Nat → Int) (minReadySeconds : Int) (pods : List (Pod μ σ)) :
    (SplitByAvailablePods isPodAvailable now minReadySeconds pods).1 =
      (pods.enum.filter
        (fun ip => isPodAvailable ip.2 minReadySeconds (now ip.1))).map Prod.snd ∧
    (SplitByAvailablePods isPodAvailable now minReadySeconds pods).2 =
      (pods.enum.filter
        (fun ip => !isPodAvailable ip.2 minReadySeconds (now ip.1))).map Prod.snd := by
  rw [SplitByAvailablePods_eq]
  exact ⟨rfl, rfl⟩

/-- C7: whatever the availability predicate and the clock return, the lengths
of the two results add up to the length of the input, each result is a
subsequence of the input, the input is an interleaving of the two, and the two
results together are a rearrangement of the input. -/
theorem SplitByAvailablePods_partition {μ σ : Type}
    (isPodAvailable : Pod μ σ → Int → Int → Bool) (now : Nat → Int) (minReadySeconds : Int)
    (pods : List (Pod μ σ)) :
    (SplitByAvailablePods isPodAvailable now minReadySeconds pods).1.length +
      (SplitByAvailablePods isPodAvailable now minReadySeconds pods).2.length = pods.length ∧
    List.Sublist (SplitByAvailablePods isPodAvailable now minReadySeconds pods).1 pods ∧
    List.Sublist (SplitByAvailablePods isPodAvailable now minReadySeconds pods).2 pods ∧
    Interleaving (SplitByAvailablePods isPodAvailable now minReadySeconds pods).1
      (SplitByAvailablePods isPodAvailable now minReadySeconds pods).2 pods ∧
    List.Perm ((SplitByAvailablePods isPodAvailable now minReadySeconds pods).1 ++
      (SplitByAvailablePods isPodAvailable now minReadySeconds pods).2) pods := by
  rw [SplitByAvailablePods_eq]
  have hpods : pods.enum.map Prod.snd = pods := List.enum_map_snd pods
  refine ⟨?_, ?_, ?_, ?_, ?_⟩
  · simp only [List.length_map]
    rw [length_filter_add_length_filter_not]
    simp
  · have h := (List.filter_sublist (p := fun ip : Nat × Pod μ σ =>
      isPodAvailable ip.2 minReadySeconds (now ip.1)) pods.enum).map Prod.snd
    rw [hpods] at h
    exact h
  · have h := (List.filter_sublist (p := fun ip : Nat × Pod μ σ =>
      !isPodAvailable ip.2 minReadySeconds (now ip.1)) pods.enum).map Prod.snd
    rw [hpods] at h
    exact h
  · have h := interleaving_filter_map (Prod.snd : Nat × Pod μ σ → Pod μ σ)
      (fun ip => isPodAvailable ip.2 minReadySeconds (now ip.1)) pods.enum
    rw [hpods] at h
    exact h
  · have h := (List.filter_append_perm
      (fun ip : Nat × Pod μ σ => isPodAvailable ip.2 minReadySeconds (now ip.1))
      pods.enum).map Prod.snd
    rw [hpods, List.map_append] at h
    exact h

/-! ## Availability and the threshold -/

/-- With threshold zero, availability is readiness, at every instant. -/
theorem IsPodAvailable_zero {μ σ : Type} (pod : Pod μ σ) (now : Int) :
    IsPodAvailable pod 0 now = IsPodReady pod := by
  unfold IsPodAvailable IsPodReady
  cases pod.Status.Ready with
  | none => rfl
  | some cond => simp

/-- The conversion of an `int32` number of seconds to nanoseconds does not wrap. -/
theorem wrapInt64_seconds (m : Int) (h0 : 0 ≤ m) (h32 : m < 2 ^ 31) :
    wrapInt64 (m * Second) = m * Second := by
  unfold wrapInt64 Second
  have h31 : (2 : Int) ^ 31 = 2147483648 := by norm_num
  have h63 : (2 : Int) ^ 63 = 9223372036854775808 := by norm_num
  have h64 : (2 : Int) ^ 64 = 18446744073709551616 := by norm_num
  rw [h31] at h32
  rw [h63, h64]
  omega

/-- Availability under a threshold gives availability under a smaller one. -/
theorem IsPodAvailable_mono {μ σ : Type} (pod : Pod μ σ) (now m1 m2 : Int)
    (h0 : 0 ≤ m1) (h12 : m1 ≤ m2) (h32 : m2 < 2 ^ 31)
    (h : IsPodAvailable pod m2 now = true) : IsPodAvailable pod m1 now = true := by
  unfold IsPodAvailable at h ⊢
  cases hr : pod.Status.Ready with
  | none => rw [hr] at h; exact absurd h (by simp)
  | some cond =>
    rw [hr] at h
    have w1 := wrapInt64_seconds m1 h0 (lt_of_le_of_lt h12 h32)
    have w2 := wrapInt64_seconds m2 (le_trans h0 h12) h32
    simp only [Bool.and_eq_true, Bool.or_eq_true, beq_iff_eq, decide_eq_true_eq, w1, w2]
      at h ⊢
    refine ⟨h.1, ?_⟩
    rcases h.2 with hz | hle
    · left; omega
    · right
      unfold Second at hle ⊢
      omega

/-- A filter by a test that another test implies is a sublist, under a map. -/
theorem filter_map_sublist_of_imp {α β : Type} (f : β → α) (q1 q2 : β → Bool)
    (himp : ∀ b, q2 b = true → q1 b = true) (L : List β) :
    List.Sublist ((L.filter q2).map f) ((L.filter q1).map f) := by
  have h : L.filter q2 = (L.filter q1).filter q2 := by
    rw [List.filter_filter]
    apply List.filter_congr
    intro b _
    cases h2 : q2 b with
    | false => rfl
    | true => simp [himp b h2]
  rw [h]
  exact (List.filter_sublist _).map f

/-- C8: with `minReadySeconds = 0`, at every clock and whatever the
last-transition times, the available result holds exactly the pods whose ready
condition is true and the unavailable result the pods that are not ready, both
in input order. -/
theorem SplitByAvailablePods_zero {μ σ : Type} (now : Nat → Int) (pods : List (Pod μ σ)) :
    SplitByAvailablePods IsPodAvailable now 0 pods =
      (pods.filter IsPodReady, pods.filter (fun pod => !IsPodReady pod)) := by
  rw [SplitByAvailablePods_eq]
  simp only [IsPodAvailable_zero]
  have hpods : pods.enum.map Prod.snd = pods := List.enum_map_snd pods
  have h1 := List.filter_map (f := (Prod.snd : Nat × Pod μ σ → Pod μ σ))
    (p := IsPodReady) (l := pods.enum)
  have h2 := List.filter_map (f := (Prod.snd : Nat × Pod μ σ → Pod μ σ))
    (p := fun pod => !IsPodReady pod) (l := pods.enum)
  rw [hpods] at h1 h2
  rw [h1, h2]
  rfl

/-- C9: for thresholds `0 ≤ m1 ≤ m2` in the `int32` range and one clock for both
calls (a fixed instant in particular), a pod is available under `m1` at every
instant at which it is available under `m2`; the pods available under `m2` are
a subsequence of those available under `m1`, and the pods unavailable under
`m1` a subsequence of those unavailable under `m2`. -/
theorem SplitByAvailablePods_mono {μ σ : Type} (now : Nat → Int) (pods : List (Pod μ σ))
    (m1 m2 : Int) (h0 : 0 ≤ m1) (h12 : m1 ≤ m2) (h32 : m2 < 2 ^ 31) :
    (∀ (pod : Pod μ σ) (t : Int),
      IsPodAvailable pod m2 t = true → IsPodAvailable pod m1 t = true) ∧
    List.Sublist (SplitByAvailablePods IsPodAvailable now m2 pods).1
      (SplitByAvailablePods IsPodAvailable now m1 pods).1 ∧
    List.Sublist (SplitByAvailablePods IsPodAvailable now m1 pods).2
      (SplitByAvailablePods IsPodAvailable now m2 pods).2 := by
  have hmono : ∀ (pod : Pod μ σ) (t : Int),
      IsPodAvailable pod m2 t = true → IsPodAvailable pod m1 t = true :=
    fun pod t => IsPodAvailable_mono pod t m1 m2 h0 h12 h32
  rw [SplitByAvailablePods_eq, SplitByAvailablePods_eq]
  refine ⟨hmono, ?_, ?_⟩
  · exact filter_map_sublist_of_imp _ _ _ (fun ip h => hmono ip.2 (now ip.1) h) _
  · apply filter_map_sublist_of_imp
    intro ip h
    cases h1 : IsPodAvailable ip.2 m1 (now ip.1) with
    | false =>
      cases h2 : IsPodAvailable ip.2 m2 (now ip.1) with
      | false => rfl
      | true => rw [hmono ip.2 (now ip.1) h2] at h1; exact absurd h1 (by simp)
    | true => simp [h1] at h

/-- Witness of C9: three pods judged at instant 20 s under the thresholds 5 s
and 10 s. -/
theorem SplitByAvailablePods_mono_witness :
    (0 : Int) ≤ 5 ∧ (5 : Int) ≤ 10 ∧ (10 : Int) < 2 ^ 31 ∧
    (∀ (pod : Pod Unit Unit) (t : Int),
      IsPodAvailable pod 10 t = true → IsPodAvailable pod 5 t = true) ∧
    List.Sublist
      (SplitByAvailablePods IsPodAvailable (fun _ => 20000000000) 10
        [samplePod none (some ⟨ConditionStatus.True, 5000000000⟩),
         samplePod none (some ⟨ConditionStatus.True, 12000000000⟩),
         samplePod none (some ⟨ConditionStatus.False, 0⟩)]).1
      (SplitByAvailablePods IsPodAvailable (fun _ => 20000000000) 5
        [samplePod none (some ⟨ConditionStatus.True, 5000000000⟩),
         samplePod none (some ⟨ConditionStatus.True, 12000000000⟩),
         samplePod none (some ⟨ConditionStatus.False, 0⟩)]).1 ∧
    List.Sublist
      (SplitByAvailablePods IsPodAvailable (fun _ => 20000000000) 5
        [samplePod none (some ⟨ConditionStatus.True, 5000000000⟩),
         samplePod none (some ⟨ConditionStatus.True, 12000000000⟩),
         samplePod none (some ⟨ConditionStatus.False, 0⟩)]).2
      (SplitByAvailablePods IsPodAvailable (fun _ => 20000000000) 10
        [samplePod none (some ⟨ConditionStatus.True, 5000000000⟩),
         samplePod none (some ⟨ConditionStatus.True, 12000000000⟩),
         samplePod none (some ⟨ConditionStatus.False, 0⟩)]).2 :=
  ⟨by decide, by decide, by decide,
    SplitByAvailablePods_mono (fun _ => 20000000000)
      [samplePod none (some ⟨ConditionStatus.True, 5000000000⟩),
       samplePod none (some ⟨ConditionStatus.True, 12000000000⟩),
       samplePod none (some ⟨ConditionStatus.False, 0⟩)] 5 10
      (by decide) (by decide) (by decide)⟩

/-! ## A failing deep copy -/

/-- C12, as stated, fails: when the deep copy fails the error is dropped and the
call panics on the type assertion (the result `none`); no error reaches the
caller. -/
theorem failing_copy_panics :
    failingDeepCopy sampleTemplate = Except.error "unsupported object" ∧
    GetPodTemplateWithGenerationFrom failingDeepCopy sampleKeys sampleTemplate 3 = none ∧
    ¬ ∃ r, GetPodTemplateWithGenerationFrom failingDeepCopy sampleKeys sampleTemplate 3
      = some r :=
  ⟨rfl, rfl, by simp [GetPodTemplateWithGenerationFrom, failingDeepCopy]⟩

/-- C12, amended: whenever the deep copy of `T` fails, whatever the error, the
call returns nothing (it panics), so no stamped result, aliased or not, is
returned, and no error value either. -/
theorem GetPodTemplateWithGenerationFrom_of_copy_error {μ σ : Type}
    (deepCopy : PodTemplateSpec μ σ → Except String (PodTemplateSpec μ σ))
    (c : Keys) (T : PodTemplateSpec μ σ) (G : Int) (err : String)
    (hfail : deepCopy T = Except.error err) :
    GetPodTemplateWithGenerationFrom deepCopy c T G = none := by
  unfold GetPodTemplateWithGenerationFrom
  rw [hfail]

/-- Witness of C12, amended: the failing deep copy on the sample template. -/
theorem GetPodTemplateWithGenerationFrom_of_copy_error_witness :
    failingDeepCopy sampleTemplate = Except.error "unsupported object" ∧
    GetPodTemplateWithGenerationFrom failingDeepCopy sampleKeys sampleTemplate 7 = none :=
  ⟨rfl, GetPodTemplateWithGenerationFrom_of_copy_error failingDeepCopy sampleKeys
    sampleTemplate 7 "unsupported object" rfl⟩

/-! ## The split and the clock -/

/-- The loop reads the clock once per remaining pod and nothing else of it. -/
theorem splitLoop_congr_clock {μ σ : Type} (p : Pod μ σ → Int → Int → Bool)
    (now1 now2 : Nat → Int) (m : Int) :
    ∀ (rest : List (Pod μ σ)) (tick : Nat) (a u : List (Pod μ σ)),
      (∀ j, j < rest.length → now1 (tick + j) = now2 (tick + j)) →
      splitLoop p now1 m rest tick a u = splitLoop p now2 m rest tick a u := by
  intro rest
  induction rest with
  | nil => intro tick a u _; rfl
  | cons pod rest ih =>
    intro tick a u h
    have h0 : now1 tick = now2 tick := by
      have := h 0 (by simp)
      simpa using this
    have hrest : ∀ j, j < rest.length → now1 (tick + 1 + j) = now2 (tick + 1 + j) := by
      intro j hj
      have := h (j + 1) (by simp; omega)
      rw [show tick + 1 + j = tick + (j + 1) by omega]
      exact this
    simp only [splitLoop, h0]
    split
    · exact ih (tick + 1) _ _ hrest
    · exact ih (tick + 1) _ _ hrest

/-- With a clock that stands still during the call, the split is a plain filter. -/
theorem SplitByAvailablePods_fixed_clock {μ σ : Type} (p : Pod μ σ → Int → Int → Bool)
    (now : Nat → Int) (t : Int) (m : Int) (pods : List (Pod μ σ))
    (hclock : ∀ k, k < pods.length → now k = t) :
    SplitByAvailablePods p now m pods =
      (pods.filter (fun pod => p pod m t), pods.filter (fun pod => !p pod m t)) := by
  have h1 : SplitByAvailablePods p now m pods = SplitByAvailablePods p (fun _ => t) m pods := by
    unfold SplitByAvailablePods
    apply splitLoop_congr_clock
    intro j hj
    rw [Nat.zero_add]
    exact hclock j hj
  rw [h1, SplitByAvailablePods_eq]
  have hpods : pods.enum.map Prod.snd = pods := List.enum_map_snd pods
  have e1 := List.filter_map (f := (Prod.snd : Nat × Pod μ σ → Pod μ σ))
    (p := fun pod => p pod m t) (l := pods.enum)
  have e2 := List.filter_map (f := (Prod.snd : Nat × Pod μ σ → Pod μ σ))
    (p := fun pod => !p pod m t) (l := pods.enum)
  rw [hpods] at e1 e2
  rw [e1, e2]
  rfl

/-- Availability reads nothing of a pod but its status. -/
theorem IsPodAvailable_congr_status {μ σ : Type} (x y : Pod μ σ) (m t : Int)
    (h : x.Status = y.Status) : IsPodAvailable x m t = IsPodAvailable y m t := by
  unfold IsPodAvailable
  rw [h]

/-- C13, as stated, fails: two calls with the same threshold and the same pod
list return different pairs when the clock reads 5 s in one and 20 s in the
other. -/
theorem SplitByAvailablePods_depends_on_clock :
    SplitByAvailablePods IsPodAvailable earlyClock 10 [readyPod] = ([], [readyPod]) ∧
    SplitByAvailablePods IsPodAvailable lateClock 10 [readyPod] = ([readyPod], []) ∧
    SplitByAvailablePods IsPodAvailable earlyClock 10 [readyPod] ≠
      SplitByAvailablePods IsPodAvailable lateClock 10 [readyPod] := by
  decide

/-- C13, amended: the result is a function of the arguments and of the clock
values read during the call, one per pod: two calls with the same arguments
whose clock readings agree return the same pair. -/
theorem SplitByAvailablePods_deterministic {μ σ : Type}
    (isPodAvailable : Pod μ σ → Int → Int → Bool) (now1 now2 : Nat → Int)
    (minReadySeconds : Int) (pods : List (Pod μ σ))
    (hclock : ∀ k, k < pods.length → now1 k = now2 k) :
    SplitByAvailablePods isPodAvailable now1 minReadySeconds pods =
      SplitByAvailablePods isPodAvailable now2 minReadySeconds pods := by
  unfold SplitByAvailablePods
  apply splitLoop_congr_clock
  intro j hj
  rw [Nat.zero_add]
  exact hclock j hj

/-- Witness of C13, amended: two clocks that agree on the one reading of a call
on a one-pod list and differ afterwards. -/
theorem SplitByAvailablePods_deterministic_witness :
    (∀ k, k < [readyPod].length → lateClock k = (fun k => if k = 0 then 20000000000 else 0) k) ∧
    SplitByAvailablePods IsPodAvailable lateClock 10 [readyPod] =
      SplitByAvailablePods IsPodAvailable (fun k => if k = 0 then 20000000000 else 0) 10
        [readyPod] :=
  ⟨by decide,
    SplitByAvailablePods_deterministic IsPodAvailable lateClock
      (fun k => if k = 0 then 20000000000 else 0) 10 [readyPod] (by decide)⟩

/-- C15: on the empty pod list, whatever the threshold, the predicate and the
clock, the call returns two empty sequences. -/
theorem SplitByAvailablePods_nil {μ σ : Type} (isPodAvailable : Pod μ σ → Int → Int → Bool)
    (now : Nat → Int) (minReadySeconds : Int) :
    SplitByAvailablePods isPodAvailable now minReadySeconds [] = ([], []) := rfl

/-- C18, as stated, fails: the clock is read once per pod, and the same pod
listed twice goes to the unavailable result the first time and to the available
result the second time when the clock passes the threshold in between. -/
theorem same_pod_split_apart :
    SplitByAvailablePods IsPodAvailable tickingClock 10 [readyPod, readyPod] =
      ([readyPod], [readyPod]) := by
  decide

/-- C18, amended: when the clock stands at one instant during the call, two
entries of the list with the same status (readiness and last-transition time)
are both in the available result and not in the unavailable one, or both in the
unavailable result and not in the available one. -/
theorem SplitByAvailablePods_same_status {μ σ : Type} (now : Nat → Int) (t : Int)
    (minReadySeconds : Int) (pods : List (Pod μ σ)) (x y : Pod μ σ)
    (hclock : ∀ k, k < pods.length → now k = t)
    (hx : x ∈ pods) (hy : y ∈ pods) (hstatus : x.Status = y.Status) :
    (x ∈ (SplitByAvailablePods IsPodAvailable now minReadySeconds pods).1 ∧
      y ∈ (SplitByAvailablePods IsPodAvailable now minReadySeconds pods).1 ∧
      x ∉ (SplitByAvailablePods IsPodAvailable now minReadySeconds pods).2 ∧
      y ∉ (SplitByAvailablePods IsPodAvailable now minReadySeconds pods).2) ∨
    (x ∈ (SplitByAvailablePods IsPodAvailable now minReadySeconds pods).2 ∧
      y ∈ (SplitByAvailablePods IsPodAvailable now minReadySeconds pods).2 ∧
      x ∉ (SplitByAvailablePods IsPodAvailable now minReadySeconds pods).1 ∧
      y ∉ (SplitByAvailablePods IsPodAvailable now minReadySeconds pods).1) := by
  rw [SplitByAvailablePods_fixed_clock IsPodAvailable now t minReadySeconds pods hclock]
  have hxy := IsPodAvailable_congr_status x y minReadySeconds t hstatus
  cases hav : IsPodAvailable x minReadySeconds t with
  | true =>
    left
    rw [hav] at hxy
    simp [List.mem_filter, hx, hy, hav, ← hxy]
  | false =>
    right
    rw [hav] at hxy
    simp [List.mem_filter, hx, hy, hav, ← hxy]

/-- Witness of C18, amended: the same pod listed twice, judged at 20 s both
times. -/
theorem SplitByAvailablePods_same_status_witness :
    (∀ k, k < [readyPod, readyPod].length → lateClock k = 20000000000) ∧
    readyPod ∈ [readyPod, readyPod] ∧ readyPod.Status = readyPod.Status ∧
    ((readyPod ∈ (SplitByAvailablePods IsPodAvailable lateClock 10 [readyPod, readyPod]).1 ∧
      readyPod ∈ (SplitByAvailablePods IsPodAvailable lateClock 10 [readyPod, readyPod]).1 ∧
      readyPod ∉ (SplitByAvailablePods IsPodAvailable lateClock 10 [readyPod, readyPod]).2 ∧
      readyPod ∉ (SplitByAvailablePods IsPodAvailable lateClock 10 [readyPod, readyPod]).2) ∨
    (readyPod ∈ (SplitByAvailablePods IsPodAvailable lateClock 10 [readyPod, readyPod]).2 ∧
      readyPod ∈ (SplitByAvailablePods IsPodAvailable lateClock 10 [readyPod, readyPod]).2 ∧
      readyPod ∉ (SplitByAvailablePods IsPodAvailable lateClock 10 [readyPod, readyPod]).1 ∧
      readyPod ∉ (SplitByAvailablePods IsPodAvailable lateClock 10 [readyPod, readyPod]).1)) :=
  ⟨fun _ _ => rfl, by decide, rfl,
    SplitByAvailablePods_same_status lateClock 20000000000 10 [readyPod, readyPod]
      readyPod readyPod (fun _ _ => rfl) (by decide) (by decide) rfl⟩

/-! ## Tolerations that survive, and stamping twice -/

/-- Adding or updating a toleration leaves alone, and in order, the entries a
test keeps, when the test rejects the given toleration and every entry with its
key. -/
theorem filter_AddOrUpdate {σ : Type} (spec : PodSpec σ) (tol : Toleration)
    (keep : Toleration → Bool) (htol : keep tol = false)
    (hkey : ∀ x : Toleration, x.Key = tol.Key → keep x = false) :
    (AddOrUpdateTolerationInPodSpec spec tol).Tolerations.filter keep =
      spec.Tolerations.filter keep := by
  rw [tolerations_AddOrUpdate]
  generalize spec.Tolerations = l
  induction l with
  | nil => simp [addOrUpdateToleration, htol]
  | cons t ts ih =>
    by_cases h : t.Key = tol.Key
    · rw [addOrUpdate_cons_match tol t ts h]
      rw [List.filter_cons, List.filter_cons, htol, hkey t h]
      simp only [Bool.false_eq_true, if_false]
      rw [List.filter_filter]
      apply List.filter_congr
      intro x _
      by_cases hx : x.Key = tol.Key
      · simp [hx, hkey x hx]
      · simp [hx]
    · rw [addOrUpdate_cons_other tol t ts h]
      rw [List.filter_cons, List.filter_cons, ih]

/-- Adding or updating a toleration whose key no entry has appends it. -/
theorem tolerations_AddOrUpdate_of_absent {σ : Type} (spec : PodSpec σ) (tol : Toleration)
    (habsent : ∀ x ∈ spec.Tolerations, x.Key ≠ tol.Key) :
    (AddOrUpdateTolerationInPodSpec spec tol).Tolerations = spec.Tolerations ++ [tol] := by
  rw [tolerations_AddOrUpdate]
  revert habsent
  generalize spec.Tolerations = l
  intro habsent
  induction l with
  | nil => rfl
  | cons t ts ih =>
    rw [addOrUpdate_cons_other tol t ts (habsent t (List.mem_cons_self _ _))]
    rw [ih (fun x hx => habsent x (List.mem_cons_of_mem _ hx))]
    rfl

/-- Adding or updating a toleration that is in the list, as the one entry with
its key, changes nothing. -/
theorem AddOrUpdate_of_canonical {σ : Type} (spec : PodSpec σ) (tol : Toleration)
    (hone : countKey tol.Key spec.Tolerations = 1)
    (hcanon : ∀ x ∈ spec.Tolerations, x.Key = tol.Key → x = tol) :
    AddOrUpdateTolerationInPodSpec spec tol = spec := by
  have hlist : addOrUpdateToleration tol spec.Tolerations = spec.Tolerations := by
    revert hone hcanon
    generalize spec.Tolerations = l
    intro hone hcanon
    induction l with
    | nil => simp [countKey] at hone
    | cons t ts ih =>
      by_cases h : t.Key = tol.Key
      · rw [addOrUpdate_cons_match tol t ts h, hcanon t (List.mem_cons_self _ _) h]
        have hzero : countKey tol.Key ts = 0 := by
          unfold countKey at hone ⊢
          rw [List.countP_cons] at hone
          have hb : (t.Key == tol.Key) = true := by simp [h]
          rw [hb] at hone
          simp only [if_true] at hone
          omega
        have hfilter : ts.filter (fun u => !(u.Key == tol.Key)) = ts := by
          rw [List.filter_eq_self]
          intro x hx
          unfold countKey at hzero
          rw [List.countP_eq_zero] at hzero
          have := hzero x hx
          simpa using this
        rw [hfilter]
      · rw [addOrUpdate_cons_other tol t ts h]
        have hone2 : countKey tol.Key ts = 1 := by
          unfold countKey at hone ⊢
          rw [List.countP_cons] at hone
          have hb : (t.Key == tol.Key) = false := by simp [h]
          rw [hb] at hone
          simpa using hone
        rw [ih hone2 (fun x hx => hcanon x (List.mem_cons_of_mem _ hx))]
  unfold AddOrUpdateTolerationInPodSpec
  rw [hlist]

/-- The stamped pod spec is a fixed point of the two toleration updates. -/
theorem stamp_spec_idempotent {σ : Type} (c : Keys) (spec : PodSpec σ) :
    AddOrUpdateTolerationInPodSpec
      (AddOrUpdateTolerationInPodSpec
        (AddOrUpdateTolerationInPodSpec
          (AddOrUpdateTolerationInPodSpec spec (faultToleration c.TaintNodeNotReady))
          (faultToleration c.TaintNodeUnreachable))
        (faultToleration c.TaintNodeNotReady))
      (faultToleration c.TaintNodeUnreachable) =
    AddOrUpdateTolerationInPodSpec
      (AddOrUpdateTolerationInPodSpec spec (faultToleration c.TaintNodeNotReady))
      (faultToleration c.TaintNodeUnreachable) := by
  have hnr : faultToleration c.TaintNodeNotReady ∈ (AddOrUpdateTolerationInPodSpec
      (AddOrUpdateTolerationInPodSpec spec (faultToleration c.TaintNodeNotReady))
      (faultToleration c.TaintNodeUnreachable)).Tolerations := by
    by_cases hsame : c.TaintNodeNotReady = c.TaintNodeUnreachable
    · rw [hsame]
      exact mem_AddOrUpdate_self _ (faultToleration c.TaintNodeUnreachable)
    · exact mem_AddOrUpdate_of_mem _ _ (faultToleration c.TaintNodeNotReady)
        (mem_AddOrUpdate_self _ _) hsame
  have hur : faultToleration c.TaintNodeUnreachable ∈ (AddOrUpdateTolerationInPodSpec
      (AddOrUpdateTolerationInPodSpec spec (faultToleration c.TaintNodeNotReady))
      (faultToleration c.TaintNodeUnreachable)).Tolerations :=
    mem_AddOrUpdate_self _ (faultToleration c.TaintNodeUnreachable)
  have e1 := AddOrUpdate_of_canonical _ (faultToleration c.TaintNodeNotReady)
    (countKey_stamped c spec).1
    (fun x hx hk => (fault_entries_canonical c spec x hx).1 hk)
  rw [e1]
  exact AddOrUpdate_of_canonical _ (faultToleration c.TaintNodeUnreachable)
    (countKey_stamped c spec).2
    (fun x hx hk => (fault_entries_canonical c spec x hx).2 hk)

theorem CloneAndAddLabel_twice (labels : Labels) (key v w : String) :
    CloneAndAddLabel (CloneAndAddLabel labels key v) key w = CloneAndAddLabel labels key w := by
  unfold CloneAndAddLabel
  simp only [Finmap.insert_insert]

/-- C16: stamping keeps, unchanged and in order, the entries of the toleration
list of `T` whose key is neither fault key; when `T` has no entry with either
fault key, the stamped list is the list of `T` followed by the not-ready
toleration and then the unreachable one, two entries longer.  The two fault
keys are distinct constants. -/
theorem GetPodTemplateWithGeneration_keeps_tolerations {μ σ : Type} (c : Keys)
    (T : PodTemplateSpec μ σ) (G : Int)
    (hne : c.TaintNodeNotReady ≠ c.TaintNodeUnreachable) :
    ∃ r, GetPodTemplateWithGeneration c T G = some r ∧
      r.Spec.Tolerations.filter (notFaultKey c) = T.Spec.Tolerations.filter (notFaultKey c) ∧
      ((∀ x ∈ T.Spec.Tolerations,
          x.Key ≠ c.TaintNodeNotReady ∧ x.Key ≠ c.TaintNodeUnreachable) →
        r.Spec.Tolerations = T.Spec.Tolerations ++
          [faultToleration c.TaintNodeNotReady, faultToleration c.TaintNodeUnreachable] ∧
        r.Spec.Tolerations.length = T.Spec.Tolerations.length + 2) := by
  refine ⟨_, GetPodTemplateWithGeneration_eq c T G, ?_, ?_⟩
  · dsimp only
    rw [filter_AddOrUpdate, filter_AddOrUpdate]
    · simp [notFaultKey, faultToleration]
    · intro x hx
      have hx2 : x.Key = c.TaintNodeNotReady := hx
      simp [notFaultKey, hx2]
    · simp [notFaultKey, faultToleration]
    · intro x hx
      have hx2 : x.Key = c.TaintNodeUnreachable := hx
      simp [notFaultKey, hx2]
  · intro habsent
    dsimp only
    have h1 := tolerations_AddOrUpdate_of_absent T.Spec (faultToleration c.TaintNodeNotReady)
      (fun x hx => (habsent x hx).1)
    have h2 := tolerations_AddOrUpdate_of_absent
      (AddOrUpdateTolerationInPodSpec T.Spec (faultToleration c.TaintNodeNotReady))
      (faultToleration c.TaintNodeUnreachable)
      (by
        intro x hx
        rw [h1] at hx
        rcases List.mem_append.1 hx with hmem | hmem
        · exact (habsent x hmem).2
        · have hxe : x = faultToleration c.TaintNodeNotReady := by simpa using hmem
          rw [hxe]
          exact hne)
    rw [h2, h1]
    simp

/-- Witness of C16: the sample template, whose single toleration has the key
`custom`, stamped with the sample keys. -/
theorem GetPodTemplateWithGeneration_keeps_tolerations_witness :
    sampleKeys.TaintNodeNotReady ≠ sampleKeys.TaintNodeUnreachable ∧
    (∀ x ∈ sampleTemplate.Spec.Tolerations,
      x.Key ≠ sampleKeys.TaintNodeNotReady ∧ x.Key ≠ sampleKeys.TaintNodeUnreachable) ∧
    sampleTemplate.Spec.Tolerations.length + 2 = 3 ∧
    ∃ r, GetPodTemplateWithGeneration sampleKeys sampleTemplate 3 = some r ∧
      r.Spec.Tolerations.filter (notFaultKey sampleKeys) =
        sampleTemplate.Spec.Tolerations.filter (notFaultKey sampleKeys) ∧
      ((∀ x ∈ sampleTemplate.Spec.Tolerations,
          x.Key ≠ sampleKeys.TaintNodeNotReady ∧ x.Key ≠ sampleKeys.TaintNodeUnreachable) →
        r.Spec.Tolerations = sampleTemplate.Spec.Tolerations ++
          [faultToleration sampleKeys.TaintNodeNotReady,
           faultToleration sampleKeys.TaintNodeUnreachable] ∧
        r.Spec.Tolerations.length = sampleTemplate.Spec.Tolerations.length + 2) :=
  ⟨by decide, by decide, by decide,
    GetPodTemplateWithGeneration_keeps_tolerations sampleKeys sampleTemplate 3 (by decide)⟩

/-- C17: stamping a stamped template again with the same generation returns it
unchanged (labels, tolerations in order, other fields); stamping it again with
another generation changes nothing but the value under the generation key, and
gives what stamping `T` with that generation gives. -/
theorem GetPodTemplateWithGeneration_idempotent {μ σ : Type} (c : Keys)
    (T : PodTemplateSpec μ σ) (G G2 : Int) :
    ∃ r r2, GetPodTemplateWithGeneration c T G = some r ∧
      GetPodTemplateWithGeneration c r G = some r ∧
      GetPodTemplateWithGeneration c r G2 = some r2 ∧
      r2.Spec = r.Spec ∧
      r2.ObjectMeta.Other = r.ObjectMeta.Other ∧
      (∀ k : String, r2.ObjectMeta.Labels.get? k =
        if k = c.DaemonSetTemplateGenerationKey then some (fmt.Sprint G2)
        else r.ObjectMeta.Labels.get? k) ∧
      GetPodTemplateWithGeneration c T G2 = some r2 := by
  refine ⟨_, _, GetPodTemplateWithGeneration_eq c T G, ?_,
    GetPodTemplateWithGeneration_eq c _ G2, ?_, rfl, ?_, ?_⟩
  · rw [GetPodTemplateWithGeneration_eq]
    dsimp only
    rw [stamp_spec_idempotent, CloneAndAddLabel_twice]
  · dsimp only
    rw [stamp_spec_idempotent]
  · intro k
    dsimp only
    rw [get?_CloneAndAddLabel]
  · rw [GetPodTemplateWithGeneration_eq]
    dsimp only
    rw [stamp_spec_idempotent, CloneAndAddLabel_twice]

/-! ## The stamper over explicit storage -/

/-- The toleration list after an update does not depend on the other fields of
the pod spec, which stay as they are. -/
theorem AddOrUpdate_eq_mk {σ : Type} (spec : PodSpec σ) (tol : Toleration) :
    AddOrUpdateTolerationInPodSpec spec tol =
      { Tolerations := (AddOrUpdateTolerationInPodSpec
          { Tolerations := spec.Tolerations, Other := () } tol).Tolerations
        Other := spec.Other } := by
  have h1 := tolerations_AddOrUpdate spec tol
  have h2 := tolerations_AddOrUpdate ({ Tolerations := spec.Tolerations, Other := () } :
    PodSpec Unit) tol
  have h3 := other_AddOrUpdate spec tol
  have hmk : ∀ s : PodSpec σ, s = { Tolerations := s.Tolerations, Other := s.Other } :=
    fun _ => rfl
  rw [hmk (AddOrUpdateTolerationInPodSpec spec tol), h3, h1, h2]

/-- The deep copy on storage: it succeeds, allocates at fresh addresses only,
and the copy reads as the original. -/
theorem DeepCopyRef_spec {μ σ : Type} (h : Heap) (T : TemplateRef μ σ) :
    ∃ h1 nt, DeepCopyRef h T = Except.ok (h1, nt) ∧ h.next ≤ h1.next ∧
      (∀ a, a < h.next → h1.maps a = h.maps a ∧ h1.slices a = h.slices a) ∧
      (∀ a, nt.Tolerations = some a → h.next ≤ a ∧ a < h1.next) ∧
      h1.readSlice nt.Tolerations = h.readSlice T.Tolerations ∧
      nt.MetaOther = T.MetaOther ∧ nt.SpecOther = T.SpecOther := by
  refine ⟨_, _, rfl, ?_, ?_, ?_, ?_, rfl, rfl⟩
  · cases hm : h.readMap T.Labels <;> cases ht : T.Tolerations <;>
      simp only [hm, ht, Heap.allocMap, Heap.allocSlice] <;> omega
  · intro a ha
    cases hm : h.readMap T.Labels <;> cases ht : T.Tolerations <;>
      simp [hm, ht, Heap.allocMap, Heap.allocSlice] <;> omega
  · intro a
    cases hm : h.readMap T.Labels <;> cases ht : T.Tolerations <;>
      simp [hm, ht, Heap.allocMap, Heap.allocSlice] <;> omega
  · cases hm : h.readMap T.Labels <;> cases ht : T.Tolerations <;>
      simp [hm, ht, Heap.allocMap, Heap.allocSlice, Heap.readSlice]

/-- The toleration update on storage, for a slice at or above a base address:
nothing below the base changes, no map object changes, and the updated slice
reads as the updated list. -/
theorem AddOrUpdateRef_spec (h : Heap) (ref : Option Nat) (tol : Toleration) (b : Nat)
    (hb : b ≤ h.next) (href : ∀ a, ref = some a → b ≤ a ∧ a < h.next) :
    h.next ≤ (AddOrUpdateTolerationInPodSpecRef h ref tol).1.next ∧
    (∀ a, a < b →
      (AddOrUpdateTolerationInPodSpecRef h ref tol).1.maps a = h.maps a ∧
      (AddOrUpdateTolerationInPodSpecRef h ref tol).1.slices a = h.slices a) ∧
    (∃ a, (AddOrUpdateTolerationInPodSpecRef h ref tol).2 = some a ∧ b ≤ a ∧
      a < (AddOrUpdateTolerationInPodSpecRef h ref tol).1.next) ∧
    (AddOrUpdateTolerationInPodSpecRef h ref tol).1.readSlice
        (AddOrUpdateTolerationInPodSpecRef h ref tol).2 =
      (AddOrUpdateTolerationInPodSpec
        { Tolerations := h.readSlice ref, Other := () } tol).Tolerations := by
  cases ref with
  | none =>
    refine ⟨?_, ?_, ?_, ?_⟩
    · simp [AddOrUpdateTolerationInPodSpecRef, Heap.allocSlice]
    · intro a ha
      simp only [AddOrUpdateTolerationInPodSpecRef, Heap.allocSlice, true_and]
      rw [if_neg (by omega)]
    · exact ⟨h.next, rfl, hb, by simp [AddOrUpdateTolerationInPodSpecRef, Heap.allocSlice]⟩
    · simp [AddOrUpdateTolerationInPodSpecRef, Heap.allocSlice, Heap.readSlice]
  | some a0 =>
    have h0 := href a0 rfl
    refine ⟨?_, ?_, ?_, ?_⟩
    · simp [AddOrUpdateTolerationInPodSpecRef, Heap.writeSlice]
    · intro a ha
      simp only [AddOrUpdateTolerationInPodSpecRef, Heap.writeSlice, true_and]
      rw [if_neg (by omega)]
    · exact ⟨a0, rfl, h0.1, by simpa [AddOrUpdateTolerationInPodSpecRef, Heap.writeSlice]
        using h0.2⟩
    · simp [AddOrUpdateTolerationInPodSpecRef, Heap.writeSlice, Heap.readSlice]

/-- The label clone on storage: one new map object at the next free address,
holding the clone; nothing else changes. -/
theorem CloneAndAddLabelRef_spec (h : Heap) (ref : Option Nat) (key value : String) :
    (CloneAndAddLabelRef h ref key value).2 = some h.next ∧
    (∀ a, a < h.next → (CloneAndAddLabelRef h ref key value).1.maps a = h.maps a) ∧
    (CloneAndAddLabelRef h ref key value).1.slices = h.slices ∧
    (CloneAndAddLabelRef h ref key value).1.readMap (CloneAndAddLabelRef h ref key value).2 =
      CloneAndAddLabel (h.readMap ref) key value := by
  refine ⟨rfl, ?_, rfl, ?_⟩
  · intro a ha
    simp only [CloneAndAddLabelRef, Heap.allocMap]
    rw [if_neg (by omega)]
  · simp [CloneAndAddLabelRef, Heap.allocMap, Heap.readMap, CloneAndAddLabel]

theorem allocatedIn_lt {μ σ : Type} (T : TemplateRef μ σ) (h : Heap)
    (hT : T.allocatedIn h = true) :
    (∀ a, T.Labels = some a → a < h.next) ∧ (∀ a, T.Tolerations = some a → a < h.next) := by
  unfold TemplateRef.allocatedIn at hT
  rw [Bool.and_eq_true] at hT
  constructor
  · intro a ha
    have h1 := hT.1
    rw [ha] at h1
    simpa using h1
  · intro a ha
    have h2 := hT.2
    rw [ha] at h2
    simpa using h2

theorem readSlice_congr (h1 h2 : Heap) (ref : Option Nat)
    (hs : ∀ a, ref = some a → h1.slices a = h2.slices a) :
    h1.readSlice ref = h2.readSlice ref := by
  cases ref with
  | none => rfl
  | some a => simp only [Heap.readSlice, hs a rfl]

theorem readMap_congr (h1 h2 : Heap) (ref : Option Nat)
    (hs : ∀ a, ref = some a → h1.maps a = h2.maps a) :
    h1.readMap ref = h2.readMap ref := by
  cases ref with
  | none => rfl
  | some a => simp only [Heap.readMap, hs a rfl]

/-- The stamper on storage, for a template allocated in the storage: it returns,
its result holds a label map and a toleration slice at addresses that were free
before the call, every object allocated before the call reads as before, and
the returned template reads as the value the stamper on values returns. -/
theorem GetPodTemplateWithGenerationRef_spec {μ σ : Type} (c : Keys) (h : Heap)
    (T : TemplateRef μ σ) (G : Int) (hT : T.allocatedIn h = true) :
    ∃ h2 r la ta, GetPodTemplateWithGenerationRef c h T G = some (h2, r) ∧
      r.Labels = some la ∧ r.Tolerations = some ta ∧ h.next ≤ la ∧ h.next ≤ ta ∧
      (∀ a, a < h.next → h2.maps a = h.maps a ∧ h2.slices a = h.slices a) ∧
      GetPodTemplateWithGeneration c (T.load h) G = some (r.load h2) := by
  obtain ⟨h1, nt, hdc, hn1, hfr1, hnt, hrd1, hmo, hso⟩ := DeepCopyRef_spec h T
  have B1 := AddOrUpdateRef_spec h1 nt.Tolerations (faultToleration c.TaintNodeNotReady)
    h.next hn1 hnt
  obtain ⟨hB1n, hB1f, ⟨a1, ha1, ha1b, ha1n⟩, hB1r⟩ := B1
  have hr1 : ∀ a, (AddOrUpdateTolerationInPodSpecRef h1 nt.Tolerations
      (faultToleration c.TaintNodeNotReady)).2 = some a →
      h.next ≤ a ∧ a < (AddOrUpdateTolerationInPodSpecRef h1 nt.Tolerations
        (faultToleration c.TaintNodeNotReady)).1.next := by
    intro a ha
    rw [ha1] at ha
    have : a1 = a := Option.some.inj ha
    rw [← this]
    exact ⟨ha1b, ha1n⟩
  have B2 := AddOrUpdateRef_spec _ _ (faultToleration c.TaintNodeUnreachable)
    h.next (le_trans hn1 hB1n) hr1
  obtain ⟨hB2n, hB2f, ⟨a2, ha2, ha2b, ha2n⟩, hB2r⟩ := B2
  have C := CloneAndAddLabelRef_spec
    (AddOrUpdateTolerationInPodSpecRef
      (AddOrUpdateTolerationInPodSpecRef h1 nt.Tolerations
        (faultToleration c.TaintNodeNotReady)).1
      (AddOrUpdateTolerationInPodSpecRef h1 nt.Tolerations
        (faultToleration c.TaintNodeNotReady)).2
      (faultToleration c.TaintNodeUnreachable)).1
    T.Labels c.DaemonSetTemplateGenerationKey (fmt.Sprint G)
  obtain ⟨hCa, hCf, hCs, hCr⟩ := C
  have hfun : GetPodTemplateWithGenerationRef c h T G = some
      ((CloneAndAddLabelRef
        (AddOrUpdateTolerationInPodSpecRef
          (AddOrUpdateTolerationInPodSpecRef h1 nt.Tolerations
            (faultToleration c.TaintNodeNotReady)).1
          (AddOrUpdateTolerationInPodSpecRef h1 nt.Tolerations
            (faultToleration c.TaintNodeNotReady)).2
          (faultToleration c.TaintNodeUnreachable)).1
        T.Labels c.DaemonSetTemplateGenerationKey (fmt.Sprint G)).1,
       { Labels := (CloneAndAddLabelRef
          (AddOrUpdateTolerationInPodSpecRef
            (AddOrUpdateTolerationInPodSpecRef h1 nt.Tolerations
              (faultToleration c.TaintNodeNotReady)).1
            (AddOrUpdateTolerationInPodSpecRef h1 nt.Tolerations
              (faultToleration c.TaintNodeNotReady)).2
            (faultToleration c.TaintNodeUnreachable)).1
          T.Labels c.DaemonSetTemplateGenerationKey (fmt.Sprint G)).2
         MetaOther := nt.MetaOther
         Tolerations := (AddOrUpdateTolerationInPodSpecRef
            (AddOrUpdateTolerationInPodSpecRef h1 nt.Tolerations
              (faultToleration c.TaintNodeNotReady)).1
            (AddOrUpdateTolerationInPodSpecRef h1 nt.Tolerations
              (faultToleration c.TaintNodeNotReady)).2
            (faultToleration c.TaintNodeUnreachable)).2
         SpecOther := nt.SpecOther }) := by
    unfold GetPodTemplateWithGenerationRef
    rw [hdc]
  have hframe : ∀ a, a < h.next →
      (AddOrUpdateTolerationInPodSpecRef
        (AddOrUpdateTolerationInPodSpecRef h1 nt.Tolerations
          (faultToleration c.TaintNodeNotReady)).1
        (AddOrUpdateTolerationInPodSpecRef h1 nt.Tolerations
          (faultToleration c.TaintNodeNotReady)).2
        (faultToleration c.TaintNodeUnreachable)).1.maps a = h.maps a ∧
      (AddOrUpdateTolerationInPodSpecRef
        (AddOrUpdateTolerationInPodSpecRef h1 nt.Tolerations
          (faultToleration c.TaintNodeNotReady)).1
        (AddOrUpdateTolerationInPodSpecRef h1 nt.Tolerations
          (faultToleration c.TaintNodeNotReady)).2
        (faultToleration c.TaintNodeUnreachable)).1.slices a = h.slices a := by
    intro a ha
    have e2 := hB2f a ha
    have e1 := hB1f a ha
    have e0 := hfr1 a ha
    exact ⟨e2.1.trans (e1.1.trans e0.1), e2.2.trans (e1.2.trans e0.2)⟩
  refine ⟨_, _, _, a2, hfun, hCa, ha2, ?_, ha2b, ?_, ?_⟩
  · omega
  · intro a ha
    refine ⟨?_, ?_⟩
    · rw [hCf a (by omega)]
      exact (hframe a ha).1
    · rw [hCs]
      exact (hframe a ha).2
  · rw [GetPodTemplateWithGeneration_eq]
    have hlabels : (AddOrUpdateTolerationInPodSpecRef
        (AddOrUpdateTolerationInPodSpecRef h1 nt.Tolerations
          (faultToleration c.TaintNodeNotReady)).1
        (AddOrUpdateTolerationInPodSpecRef h1 nt.Tolerations
          (faultToleration c.TaintNodeNotReady)).2
        (faultToleration c.TaintNodeUnreachable)).1.readMap T.Labels = h.readMap T.Labels :=
      readMap_congr _ _ _ (fun a ha => (hframe a ((allocatedIn_lt T h hT).1 a ha)).1)
    have hslice := readSlice_congr _ _ (AddOrUpdateTolerationInPodSpecRef
        (AddOrUpdateTolerationInPodSpecRef h1 nt.Tolerations
          (faultToleration c.TaintNodeNotReady)).1
        (AddOrUpdateTolerationInPodSpecRef h1 nt.Tolerations
          (faultToleration c.TaintNodeNotReady)).2
        (faultToleration c.TaintNodeUnreachable)).2 (fun a _ => congrFun hCs a)
    simp only [TemplateRef.load]
    rw [hCr, hlabels, hslice, hB2r, hB1r, hrd1, hmo, hso]
    rw [AddOrUpdate_eq_mk (AddOrUpdateTolerationInPodSpec _ _)
      (faultToleration c.TaintNodeUnreachable),
      AddOrUpdate_eq_mk _ (faultToleration c.TaintNodeNotReady)]

/-- C11: the stamper leaves its input untouched.  For a template allocated in
the storage, after the call the label map of `T` holds what it held before (the
generation label is not written into it), the toleration list of `T` holds the
entries it held before in the same order, and so does every object allocated
before the call; the returned template is the stamped one. -/
theorem GetPodTemplateWithGenerationRef_input_untouched {μ σ : Type} (c : Keys) (h : Heap)
    (T : TemplateRef μ σ) (G : Int) (hT : T.allocatedIn h = true) :
    ∃ h2 r, GetPodTemplateWithGenerationRef c h T G = some (h2, r) ∧
      h2.readMap T.Labels = h.readMap T.Labels ∧
      h2.readSlice T.Tolerations = h.readSlice T.Tolerations ∧
      T.load h2 = T.load h ∧
      (∀ a, a < h.next → h2.maps a = h.maps a ∧ h2.slices a = h.slices a) ∧
      GetPodTemplateWithGeneration c (T.load h) G = some (r.load h2) := by
  obtain ⟨h2, r, la, ta, hfun, _, _, _, _, hframe, hval⟩ :=
    GetPodTemplateWithGenerationRef_spec c h T G hT
  have hlt := allocatedIn_lt T h hT
  have hmap : h2.readMap T.Labels = h.readMap T.Labels :=
    readMap_congr _ _ _ (fun a ha => (hframe a (hlt.1 a ha)).1)
  have hslice : h2.readSlice T.Tolerations = h.readSlice T.Tolerations :=
    readSlice_congr _ _ _ (fun a ha => (hframe a (hlt.2 a ha)).2)
  refine ⟨h2, r, hfun, hmap, hslice, ?_, hframe, hval⟩
  simp only [TemplateRef.load, hmap, hslice]

/-- Witness of C11: the sample template held in the sample storage. -/
theorem GetPodTemplateWithGenerationRef_input_untouched_witness :
    sampleTemplateRef.allocatedIn sampleHeap = true ∧
    ∃ h2 r, GetPodTemplateWithGenerationRef sampleKeys sampleHeap sampleTemplateRef 3
        = some (h2, r) ∧
      h2.readMap sampleTemplateRef.Labels = sampleHeap.readMap sampleTemplateRef.Labels ∧
      h2.readSlice sampleTemplateRef.Tolerations =
        sampleHeap.readSlice sampleTemplateRef.Tolerations ∧
      sampleTemplateRef.load h2 = sampleTemplateRef.load sampleHeap ∧
      (∀ a, a < sampleHeap.next →
        h2.maps a = sampleHeap.maps a ∧ h2.slices a = sampleHeap.slices a) ∧
      GetPodTemplateWithGeneration sampleKeys (sampleTemplateRef.load sampleHeap) 3
        = some (r.load h2) :=
  ⟨by decide,
    GetPodTemplateWithGenerationRef_input_untouched sampleKeys sampleHeap sampleTemplateRef 3
      (by decide)⟩

/-- C14: the stamped template does not share storage with the input.  For a
template allocated in the storage, the label map and the toleration slice of the
result sit at addresses that were free before the call, distinct from those of
`T`, and overwriting them afterwards with anything leaves `T` as it was before
the call. -/
theorem GetPodTemplateWithGenerationRef_fresh_storage {μ σ : Type} (c : Keys) (h : Heap)
    (T : TemplateRef μ σ) (G : Int) (hT : T.allocatedIn h = true) :
    ∃ h2 r la ta, GetPodTemplateWithGenerationRef c h T G = some (h2, r) ∧
      r.Labels = some la ∧ r.Tolerations = some ta ∧
      h.next ≤ la ∧ h.next ≤ ta ∧
      T.Labels ≠ some la ∧ T.Tolerations ≠ some ta ∧
      ∀ (m : LabelMap) (l : List Toleration),
        T.load ((h2.writeMap la m).writeSlice ta l) = T.load h := by
  obtain ⟨h2, r, la, ta, hfun, hla, hta, hlan, htan, hframe, _⟩ :=
    GetPodTemplateWithGenerationRef_spec c h T G hT
  have hlt := allocatedIn_lt T h hT
  refine ⟨h2, r, la, ta, hfun, hla, hta, hlan, htan, ?_, ?_, ?_⟩
  · intro hc
    have := hlt.1 la hc
    omega
  · intro hc
    have := hlt.2 ta hc
    omega
  · intro m l
    have hmap : ((h2.writeMap la m).writeSlice ta l).readMap T.Labels = h.readMap T.Labels := by
      apply readMap_congr
      intro a ha
      have hlta := hlt.1 a ha
      simp only [Heap.writeSlice, Heap.writeMap]
      rw [if_neg (by omega)]
      exact (hframe a hlta).1
    have hslice : ((h2.writeMap la m).writeSlice ta l).readSlice T.Tolerations
        = h.readSlice T.Tolerations := by
      apply readSlice_congr
      intro a ha
      have hlta := hlt.2 a ha
      simp only [Heap.writeSlice, Heap.writeMap]
      rw [if_neg (by omega)]
      exact (hframe a hlta).2
    simp only [TemplateRef.load, hmap, hslice]

/-- Witness of C14: the sample template held in the sample storage. -/
theorem GetPodTemplateWithGenerationRef_fresh_storage_witness :
    sampleTemplateRef.allocatedIn sampleHeap = true ∧
    ∃ h2 r la ta, GetPodTemplateWithGenerationRef sampleKeys sampleHeap sampleTemplateRef 3
        = some (h2, r) ∧
      r.Labels = some la ∧ r.Tolerations = some ta ∧
      sampleHeap.next ≤ la ∧ sampleHeap.next ≤ ta ∧
      sampleTemplateRef.Labels ≠ some la ∧ sampleTemplateRef.Tolerations ≠ some ta ∧
      ∀ (m : LabelMap) (l : List Toleration),
        sampleTemplateRef.load ((h2.writeMap la m).writeSlice ta l) =
          sampleTemplateRef.load sampleHeap :=
  ⟨by decide,
    GetPodTemplateWithGenerationRef_fresh_storage sampleKeys sampleHeap sampleTemplateRef 3
      (by decide)⟩

end Daemon
